import Mathlib

/-!
Verification development for the `stillpoint` observability collector
(`src/stillpoint/collector_app.py`).

The ingest-and-aggregation engine is embedded shallowly:

* Python floats (timestamps, durations, gauge values, rates) are modelled
  as `ℚ`; none of the verified claims depends on float rounding.
* Python dict-shaped events are modelled as the record `EventDict` whose
  fields are exactly the keys `_ingest_event_dict` and its helpers read;
  `none` stands for an absent or JSON-null key wherever the code only
  distinguishes those through `dict.get`.
* Python dicts used as keyed stores (`INFLIGHT_BY_SERVICE`,
  `ERROR_SIG_COUNT`, `INFLIGHT_REQUESTS`, `ENDPOINT_WINDOWS`,
  `TRACE_STORE`) are association lists in insertion order, which for the
  `OrderedDict` trace store is exactly the LRU recency order (front =
  least recently touched).
* `time.time()` and `random.random()` are external inputs; each ingest
  step takes the current time `now` and the uniform draw `draw` as
  arguments.
* The SHA-1 fingerprint `_signature_from_trace` is an external pure hash;
  the step function is parametric in a function `sigOf` standing for it
  (no verified claim depends on the concrete hash values).
* Module-level config constants read from the environment are gathered in
  a `Config` record passed to every function that reads them.
-/

/-! ### Python-shaped helpers -/

/-- Truthiness of an optional string, as Python `if s:` sees it:
`None` and the empty string are falsy. -/
def truthyS : Option String → Option String
  | some s => if s = "" then none else some s
  | none => none

/-- Truthiness of an optional header map, as Python `if headers:` sees it:
`None` and an empty dict are falsy. -/
def truthyHeaders : Option (List (String × String)) → Option (List (String × String))
  | some h => if h = [] then none else some h
  | none => none

/-- Python `int()` on a float value: truncation toward zero. -/
def pyInt (q : ℚ) : ℤ := if 0 ≤ q then ⌊q⌋ else ⌈q⌉

/-! ### Association-list maps (Python dicts in insertion order) -/

/-- Insertion-ordered map from strings, standing for a Python dict. -/
abbrev SMap (α : Type) := List (String × α)

/-- Lookup, returning `none` when the key is absent. -/
def lookup? {α : Type} (m : SMap α) (k : String) : Option α :=
  match m with
  | [] => none
  | (k1, v) :: t => if k1 = k then some v else lookup? t k

/-- Lookup with a default, as Python `m.get(k, d)` / `defaultdict` reads. -/
def lookupD {α : Type} (m : SMap α) (k : String) (d : α) : α :=
  (lookup? m k).getD d

/-- Dict write `m[k] = v`: replaces in place when present (Python dicts keep
the original insertion position on update), else appends at the end. -/
def setK {α : Type} (m : SMap α) (k : String) (v : α) : SMap α :=
  match m with
  | [] => [(k, v)]
  | (k1, v1) :: t => if k1 = k then (k, v) :: t else (k1, v1) :: setK t k v

/-- Dict delete `del m[k]` (no-op when the key is absent). -/
def eraseK {α : Type} (m : SMap α) (k : String) : SMap α :=
  match m with
  | [] => []
  | (k1, v1) :: t => if k1 = k then t else (k1, v1) :: eraseK t k

/-- In-place update of the value stored at `k` (no-op when absent); models
mutating the dict entry through an alias. -/
def mapK {α : Type} (m : SMap α) (k : String) (f : α → α) : SMap α :=
  match m with
  | [] => []
  | (k1, v1) :: t => if k1 = k then (k, f v1) :: t else (k1, v1) :: mapK t k f

/-- Keys of the map, in insertion order. -/
def keysOf {α : Type} (m : SMap α) : List String := m.map Prod.fst

/-- Sum of the integer values of the map. -/
def sumV (m : SMap ℤ) : ℤ := (m.map (fun p => p.2)).sum

/-! ### Event model

Record shape shared by all event kinds: the fields are the dict keys that
`_ingest_event_dict`, `_endpoint_key`, `_should_sample_req` and
`_record_recent_request` read. `meta` is the free-form dict; only its
`headers` entry is read structurally, the rest is kept abstract. -/

structure Meta where
  headers : Option (List (String × String)) := none
  rest : List (String × String) := []
deriving DecidableEq

/-- Empty meta dict, the pydantic default `meta = {}`. -/
def emptyMeta : Meta := {}

structure EventDict where
  kind : String := ""
  ts : Option ℚ := none
  service : Option String := none
  traceId : Option String := none
  spanId : Option String := none
  requestId : Option String := none
  method : Option String := none
  path : Option String := none
  route : Option String := none
  status : Option ℤ := none
  durationMs : Option ℚ := none
  level : Option String := none
  logger : Option String := none
  message : Option String := none
  trace : Option String := none
  meta : Option Meta := none
  name : Option String := none
  value : Option ℚ := none
deriving DecidableEq

/-- Blank event, every field absent. -/
def blankEvent : EventDict := {}

/-- Reads `(data.get("meta") or {}).get("headers")`. -/
def metaHeaders (e : EventDict) : Option (List (String × String)) :=
  e.meta.bind (fun m => m.headers)

/-! ### Trace bundles and state -/

/-- Summary pushed onto `bundle["logs"]` by the `log` branch. -/
structure LogSummary where
  ts : ℚ
  level : Option String
  logger : Option String
  message : Option String
  trace : Option String
  meta : Option Meta
deriving DecidableEq

/-- Per-`request_id` trace bundle. -/
structure Bundle where
  reqStart : Option EventDict := none
  reqEnd : Option EventDict := none
  headers : List (String × String) := []
  logs : List LogSummary := []
  spans : List EventDict := []
deriving DecidableEq

/-- Fresh bundle created by `_get_trace_bundle`. -/
def emptyBundle : Bundle := {}

/-- Summary appended to `RECENT_REQS` by `_record_recent_request`. -/
structure RecentSummary where
  ts : ℚ
  requestId : Option String
  traceId : Option String
  spanId : Option String
  service : Option String
  method : Option String
  path : Option String
  route : Option String
  endpoint : String
  status : ℤ
  durationMs : Option ℚ
deriving DecidableEq

/-- Module-level configuration constants (env defaults shown). -/
structure Config where
  windowS : ℚ := 120
  slowMs : ℚ := 750
  sampleRate : ℚ := 5 / 100
  traceStoreMax : ℕ := 2000
  traceLogsMax : ℕ := 200
  traceSpansMax : ℕ := 200
  recentReqsMax : ℕ := 2000
  maxEvents : ℕ := 30000
deriving DecidableEq

/-- Mutable module-level aggregate state of the collector.
Request samples are `(ts, duration_ms or None, status)` triples. -/
structure CState where
  reqWindow : List (ℚ × Option ℚ × ℤ) := []
  endpointWindows : SMap (List (ℚ × Option ℚ × ℤ)) := []
  recentReqs : List RecentSummary := []
  errorSigWindow : List (ℚ × String) := []
  errorSigCount : SMap ℤ := []
  inflightByService : SMap ℤ := []
  inflightGlobal : ℤ := 0
  inflightRequests : SMap (String × ℚ) := []
  traceStore : SMap Bundle := []
  events : List EventDict := []
deriving DecidableEq

/-- Fresh-process state: every aggregate empty. -/
def initState : CState := {}

/-! ### Helpers from the source -/

/-- Source `_bucket_status`. -/
def _bucket_status (status : ℤ) : String :=
  if 200 ≤ status ∧ status < 300 then "2xx"
  else if 300 ≤ status ∧ status < 400 then "3xx"
  else if 400 ≤ status ∧ status < 500 then "4xx"
  else "5xx"

/-- Source `_endpoint_key`: `method or "GET"` plus `route or path or "unknown"`
(Python `or`, so empty strings fall through). -/
def _endpoint_key (ev : EventDict) : String :=
  (match truthyS ev.method with
   | some m => m
   | none => "GET") ++ " " ++
  (match truthyS ev.route with
   | some r => r
   | none =>
     match truthyS ev.path with
     | some p => p
     | none => "unknown")

/-- Source `_prune_req_deque`: pop from the head while the head timestamp is
older than the window. -/
def _prune_req_deque (dq : List (ℚ × Option ℚ × ℤ)) (now w : ℚ) :
    List (ℚ × Option ℚ × ℤ) :=
  match dq with
  | [] => []
  | x :: t => if now - x.1 > w then _prune_req_deque t now w else x :: t

/-- Source `_percentile` over an ascending list: `f = int(k)` truncates, and
the `f = c` collapse returns the rank directly. -/
def _percentile (sorted_vals : List ℚ) (p : ℚ) : Option ℚ :=
  if sorted_vals = [] then none
  else if p ≤ 0 then some (sorted_vals.getD 0 0)
  else if 100 ≤ p then some (sorted_vals.getD (sorted_vals.length - 1) 0)
  else
    let k : ℚ := ((sorted_vals.length : ℚ) - 1) * (p / 100)
    let f : ℕ := (pyInt k).toNat
    let c : ℕ := min (f + 1) (sorted_vals.length - 1)
    if f = c then some (sorted_vals.getD f 0)
    else some (sorted_vals.getD f 0 +
      (sorted_vals.getD c 0 - sorted_vals.getD f 0) * (k - (f : ℚ)))

/-- Source `_should_sample_req`, with the `random.random()` draw passed in. -/
def _should_sample_req (cfg : Config) (data : EventDict) (draw : ℚ) : Bool :=
  let status := data.status.getD 0
  let durOk := match data.durationMs with
    | some d => decide (cfg.slowMs ≤ d)
    | none => false
  if 500 ≤ status then true
  else if durOk then true
  else if cfg.sampleRate ≤ 0 then false
  else decide (draw < cfg.sampleRate)

/-- Source `_prune_recent`. -/
def _prune_recent (l : List RecentSummary) (now w : ℚ) : List RecentSummary :=
  match l with
  | [] => []
  | x :: t => if now - x.ts > w then _prune_recent t now w else x :: t

/-- Bounded-deque append (`deque(maxlen=cap)`): drop from the left when the
capacity is exceeded. -/
def capAppend {α : Type} (l : List α) (x : α) (cap : ℕ) : List α :=
  let l2 := l ++ [x]
  if cap < l2.length then l2.drop (l2.length - cap) else l2

/-- Eviction loop of `_get_trace_bundle`: `while len > max: popitem(last=False)`,
i.e. drop oldest entries from the front until the size bound holds. -/
def evictStore (st : SMap Bundle) (m : ℕ) : SMap Bundle :=
  st.drop (st.length - m)

/-- Store effect of `_get_trace_bundle`: given the truthy request id (or
`none`), returns whether a live bundle exists and the store after the LRU
touch / creation / eviction. A bundle created when `TRACE_STORE_MAX = 0` is
immediately evicted; the orphan dict is unobservable, so `updStore` below is
a no-op for it. -/
def touchStore (cfg : Config) (st : SMap Bundle) (ridT : Option String)
    (createB : Bool) : Bool × SMap Bundle :=
  match ridT with
  | none => (false, st)
  | some r =>
    match lookup? st r with
    | some b => (true, evictStore (eraseK st r ++ [(r, b)]) cfg.traceStoreMax)
    | none =>
      if createB then
        (true, evictStore (st ++ [(r, emptyBundle)]) cfg.traceStoreMax)
      else (false, st)

/-- Mutation of the live bundle through its alias: rewrites the stored bundle
at the request id when the lookup produced one. -/
def updStore (st : SMap Bundle) (ridT : Option String) (live : Bool)
    (f : Bundle → Bundle) : SMap Bundle :=
  match ridT with
  | some r => if live then mapK st r f else st
  | none => st

/-- Source `_record_recent_request`: skipped when `status` is absent/null;
appends a summary and pops one from the left past `RECENT_REQS_MAX`. -/
def _record_recent_request (cfg : Config) (data : EventDict) (now : ℚ)
    (σ : CState) : CState :=
  match data.status with
  | none => σ
  | some st =>
    let summary : RecentSummary :=
      { ts := data.ts.getD now
        requestId := data.requestId
        traceId := data.traceId
        spanId := data.spanId
        service := data.service
        method := data.method
        path := data.path
        route := data.route
        endpoint := _endpoint_key data
        status := st
        durationMs := data.durationMs }
    let rr := σ.recentReqs ++ [summary]
    { σ with recentReqs := if cfg.recentReqsMax < rr.length then rr.drop 1 else rr }

/-- Source `prune_error_sigs`: pop expired `(ts, sig)` pairs from the head,
decrement the count of each popped signature and delete keys at zero or
below (`defaultdict` makes the decrement of an absent key transiently `-1`,
which is then deleted, so erasing an absent key is the correct net effect). -/
def prune_error_sigs (win : List (ℚ × String)) (cnt : SMap ℤ) (now w : ℚ) :
    List (ℚ × String) × SMap ℤ :=
  match win with
  | [] => ([], cnt)
  | (t, s) :: rest =>
    if now - t > w then
      let v := lookupD cnt s 0 - 1
      prune_error_sigs rest (if v ≤ 0 then eraseK cnt s else setK cnt s v) now w
    else ((t, s) :: rest, cnt)

/-! ### The ingest dispatcher `_ingest_event_dict`

One branch function per `kind`, mirroring the dispatch blocks of the
source; `_ingest_event_dict` assembles them. The `Bool` result is the
`should_publish` decision (append to the `EVENTS` ring and fan-out). -/

/-- Branch `kind == "req_start"`: in-flight increments, `INFLIGHT_REQUESTS`
entry for a truthy request id, bundle start + headers. -/
def branchReqStart (data : EventDict) (now : ℚ) (ridT : Option String)
    (live : Bool) (σ : CState) : CState :=
  let svc := data.service.getD "unknown"
  let σ1 := { σ with
    inflightByService := setK σ.inflightByService svc
      (lookupD σ.inflightByService svc 0 + 1)
    inflightGlobal := σ.inflightGlobal + 1 }
  let σ2 := match ridT with
    | some r => { σ1 with inflightRequests := setK σ1.inflightRequests r (svc, now) }
    | none => σ1
  { σ2 with traceStore := updStore σ2.traceStore ridT live (fun b =>
      let b1 := { b with reqStart := some data }
      match truthyHeaders (metaHeaders data) with
      | some h => { b1 with headers := h }
      | none => b1) }

/-- Branch `kind in ("req", "req_end")`: window appends + prunes, bundle end
+ headers, recent ring, and for `req_end` the matched in-flight decrement
with its zero floors. -/
def branchReq (cfg : Config) (data : EventDict) (now : ℚ) (ridT : Option String)
    (live : Bool) (σ : CState) : CState :=
  let sample : ℚ × Option ℚ × ℤ := (data.ts.getD now, data.durationMs, data.status.getD 0)
  let σ1 := { σ with reqWindow := _prune_req_deque (σ.reqWindow ++ [sample]) now cfg.windowS }
  let epk := _endpoint_key data
  let w2 := _prune_req_deque (lookupD σ1.endpointWindows epk [] ++ [sample]) now cfg.windowS
  let σ2 := { σ1 with endpointWindows := setK σ1.endpointWindows epk w2 }
  let σ3 := { σ2 with traceStore := updStore σ2.traceStore ridT live (fun b =>
      let b1 := { b with reqEnd := some data }
      match truthyHeaders (metaHeaders data) with
      | some h => { b1 with headers := h }
      | none => b1) }
  let σ4 := _record_recent_request cfg data now σ3
  let σ5 := { σ4 with recentReqs := _prune_recent σ4.recentReqs now cfg.windowS }
  if data.kind = "req_end" then
    match ridT with
    | some r =>
      match lookup? σ5.inflightRequests r with
      | some sv =>
        let σ6 := { σ5 with inflightRequests := eraseK σ5.inflightRequests r }
        let v : ℤ := lookupD σ6.inflightByService sv.1 0 - 1
        let g : ℤ := σ6.inflightGlobal - 1
        { σ6 with
          inflightByService := setK σ6.inflightByService sv.1 (if v < 0 then 0 else v)
          inflightGlobal := if g < 0 then 0 else g }
      | none => σ5
    | none => σ5
  else σ5

/-- Branch `kind == "log"`: error-signature window/count update on a truthy
trace, then prune; bundle log append. -/
def branchLog (cfg : Config) (sigOf : String → String) (data : EventDict)
    (now : ℚ) (ridT : Option String) (live : Bool) (σ : CState) : CState :=
  let σ1 := match truthyS data.trace with
    | some tr =>
      let sig := sigOf tr
      let w := σ.errorSigWindow ++ [(data.ts.getD now, sig)]
      let c := setK σ.errorSigCount sig (lookupD σ.errorSigCount sig 0 + 1)
      let pc := prune_error_sigs w c now cfg.windowS
      { σ with errorSigWindow := pc.1, errorSigCount := pc.2 }
    | none => σ
  let summary : LogSummary :=
    { ts := data.ts.getD now
      level := data.level
      logger := data.logger
      message := data.message
      trace := data.trace
      meta := data.meta }
  { σ1 with traceStore := updStore σ1.traceStore ridT live (fun b =>
      { b with logs := capAppend b.logs summary cfg.traceLogsMax }) }

/-- Branch `kind == "gauge"`: in-flight delta with per-counter zero floors
when the gauge is named `inflight_delta`. -/
def branchGauge (data : EventDict) (σ : CState) : CState :=
  let val := data.value.getD 0
  let svc := data.service.getD "unknown"
  if data.name = some "inflight_delta" then
    let x := lookupD σ.inflightByService svc 0 + pyInt val
    let g := σ.inflightGlobal + pyInt val
    { σ with
      inflightByService := setK σ.inflightByService svc (if x < 0 then 0 else x)
      inflightGlobal := if g < 0 then 0 else g }
  else σ

/-- Branch `kind == "span"`: append the event to the bundle's span deque. -/
def branchSpan (cfg : Config) (data : EventDict) (ridT : Option String)
    (live : Bool) (σ : CState) : CState :=
  { σ with traceStore := updStore σ.traceStore ridT live (fun b =>
      { b with spans := capAppend b.spans data cfg.traceSpansMax }) }

/-- Publish step: `if should_publish: EVENTS.append(data)` with the
`MAX_EVENTS` ring bound (fan-out to subscribers carries the same flag). -/
def pubRing (cfg : Config) (σ : CState) (data : EventDict) (pub : Bool) : CState :=
  if pub then { σ with events := capAppend σ.events data cfg.maxEvents } else σ

/-- Source `_ingest_event_dict`: trace-bundle lookup/creation, dispatch by
kind, publish decision. Setting absent ids to null is the identity in this
embedding. -/
def _ingest_event_dict (cfg : Config) (sigOf : String → String)
    (data : EventDict) (now draw : ℚ) (σ : CState) : CState × Bool :=
  let ridT := truthyS data.requestId
  let createB : Bool := data.kind == "req_start" || data.kind == "req_end" ||
    data.kind == "req" || data.kind == "log" || data.kind == "span"
  let tb := touchStore cfg σ.traceStore ridT createB
  let σ1 := { σ with traceStore := tb.2 }
  if data.kind = "req_start" then
    (pubRing cfg (branchReqStart data now ridT tb.1 σ1) data false, false)
  else if data.kind = "req" ∨ data.kind = "req_end" then
    let σ2 := branchReq cfg data now ridT tb.1 σ1
    let pub := _should_sample_req cfg data draw
    (pubRing cfg σ2 data pub, pub)
  else if data.kind = "log" then
    (pubRing cfg (branchLog cfg sigOf data now ridT tb.1 σ1) data true, true)
  else if data.kind = "gauge" then
    (pubRing cfg (branchGauge data σ1) data true, true)
  else if data.kind = "span" then
    (pubRing cfg (branchSpan cfg data ridT tb.1 σ1) data true, true)
  else
    (pubRing cfg σ1 data true, true)

/-! ### Operation sequences -/

/-- One externally triggered mutation of the aggregate state: an ingested
event (`POST /ingest` or the tailer), or a standalone
`prune_error_sigs()` call (`compute_top_error_signatures`). -/
inductive Op where
  | ev (e : EventDict) (now draw : ℚ)
  | pruneSigsAt (now : ℚ)
deriving DecidableEq

/-- Apply one operation. -/
def opStep (cfg : Config) (sigOf : String → String) (σ : CState) (op : Op) : CState :=
  match op with
  | .ev e now draw => (_ingest_event_dict cfg sigOf e now draw σ).1
  | .pruneSigsAt now =>
    let pc := prune_error_sigs σ.errorSigWindow σ.errorSigCount now cfg.windowS
    { σ with errorSigWindow := pc.1, errorSigCount := pc.2 }

/-- Run a sequence of operations. -/
def run (cfg : Config) (sigOf : String → String) (ops : List Op) (σ : CState) : CState :=
  ops.foldl (opStep cfg sigOf) σ

/-! ### Global metrics -/

/-- Result record of `compute_global_metrics` (trend sparklines omitted;
they are produced by the query layer from the same numbers). -/
structure GlobalMetrics where
  window_s : ℚ
  count : ℕ
  rps : ℚ
  s2xx : ℕ
  s3xx : ℕ
  s4xx : ℕ
  s5xx : ℕ
  error_rate_5xx : ℚ
  p50_ms : Option ℚ
  p95_ms : Option ℚ
  p99_ms : Option ℚ
  inflight : ℤ
  latency_available : Bool

/-- Source `compute_global_metrics`: prune the global window, bucket the
statuses, sort the non-null durations ascending and interpolate the
percentiles. The source's single pass over the deque is rendered as one
filter per bucket. -/
def compute_global_metrics (cfg : Config) (σ : CState) (now : ℚ) : GlobalMetrics :=
  let w := _prune_req_deque σ.reqWindow now cfg.windowS
  let n := w.length
  let err5xx := (w.filter (fun x => _bucket_status x.2.2 == "5xx")).length
  let durs := w.filterMap (fun x => x.2.1)
  let durs_sorted := durs.mergeSort (fun a b => decide (a ≤ b))
  { window_s := cfg.windowS
    count := n
    rps := if 0 < cfg.windowS then (n : ℚ) / cfg.windowS else 0
    s2xx := (w.filter (fun x => _bucket_status x.2.2 == "2xx")).length
    s3xx := (w.filter (fun x => _bucket_status x.2.2 == "3xx")).length
    s4xx := (w.filter (fun x => _bucket_status x.2.2 == "4xx")).length
    s5xx := err5xx
    error_rate_5xx := if n ≠ 0 then (err5xx : ℚ) / (n : ℚ) else 0
    p50_ms := _percentile durs_sorted 50
    p95_ms := _percentile durs_sorted 95
    p99_ms := _percentile durs_sorted 99
    inflight := σ.inflightGlobal
    latency_available := !durs_sorted.isEmpty }

/-! ### Query surface: single-trace read -/

/-- Store effect and lookup of `GET /trace/<request_id>` (`trace_detail`):
the handler reads `TRACE_STORE.get(request_id)` and builds its response
from the bundle; it never writes `TRACE_STORE`. The response body itself is
not needed by the claims, so the found bundle stands for it. -/
def trace_detail (σ : CState) (request_id : String) : Option Bundle × CState :=
  (lookup? σ.traceStore request_id, σ)

/-! ### The tailer's JSON path and the POST /ingest body model -/

/-- JSON branch of source `parse_access_line`, applied to the decoded
object: accept only the three req kinds, default `service` to the tailer's
configured service and `ts` to the current time. `setdefault("route", None)`
and the `int`/`float` coercions of already-numeric fields are the identity
in this embedding. -/
def parse_access_line_json (obj : EventDict) (service : String) (now : ℚ) :
    Option EventDict :=
  if obj.kind = "req" ∨ obj.kind = "req_end" ∨ obj.kind = "req_start" then
    some { obj with
      service := some (obj.service.getD service)
      ts := some (obj.ts.getD now) }
  else none

/-- Modelled from the spec and the pydantic event models: validation and
`model_dump()` of an authorized `POST /ingest` body of one of the req
kinds. Required fields (`method`, `path`, and `status` for `req`/`req_end`)
reject the body when absent (422, no state mutation); `ts` defaults to now,
`service` to `"unknown"`, `meta` to the empty dict; fields outside the
matched model are dropped by `model_dump`. -/
def postNormReq (b : EventDict) (now : ℚ) : Option EventDict :=
  if b.kind = "req" ∨ b.kind = "req_end" then
    match b.method, b.path, b.status with
    | some m, some pth, some st =>
      some { kind := b.kind
             ts := some (b.ts.getD now)
             service := some (b.service.getD "unknown")
             traceId := b.traceId
             spanId := b.spanId
             requestId := b.requestId
             method := some m
             path := some pth
             route := b.route
             status := some st
             durationMs := b.durationMs
             meta := some (b.meta.getD emptyMeta) }
    | _, _, _ => none
  else if b.kind = "req_start" then
    match b.method, b.path with
    | some m, some pth =>
      some { kind := "req_start"
             ts := some (b.ts.getD now)
             service := some (b.service.getD "unknown")
             traceId := b.traceId
             spanId := b.spanId
             requestId := b.requestId
             method := some m
             path := some pth
             route := b.route
             meta := some (b.meta.getD emptyMeta) }
    | _, _ => none
  else none

/-- Tailer pipeline for one decoded JSON object: parse, then inject into
the ingest dispatcher. -/
def ingestViaTailer (cfg : Config) (sigOf : String → String) (obj : EventDict)
    (service : String) (now draw : ℚ) (σ : CState) : Option (CState × Bool) :=
  (parse_access_line_json obj service now).map
    (fun e => _ingest_event_dict cfg sigOf e now draw σ)

/-- Authorized `POST /ingest` pipeline for the same JSON body. -/
def ingestViaPost (cfg : Config) (sigOf : String → String) (obj : EventDict)
    (now draw : ℚ) (σ : CState) : Option (CState × Bool) :=
  (postNormReq obj now).map
    (fun e => _ingest_event_dict cfg sigOf e now draw σ)

/-! ### Association-map lemmas -/

theorem lookup?_setK_self {α : Type} (m : SMap α) (k : String) (v : α) :
    lookup? (setK m k v) k = some v := by
  induction m with
  | nil => simp [setK, lookup?]
  | cons p t ih =>
    by_cases h : p.1 = k
    · simp [setK, lookup?, h]
    · simp [setK, lookup?, h, ih]

theorem lookup?_setK_ne {α : Type} (m : SMap α) (k k1 : String) (v : α)
    (h : k1 ≠ k) : lookup? (setK m k v) k1 = lookup? m k1 := by
  induction m with
  | nil =>
    simp only [setK, lookup?]
    rw [if_neg (fun hh => h hh.symm)]
  | cons p t ih =>
    by_cases hp : p.1 = k
    · simp only [setK, if_pos hp, lookup?]
      rw [if_neg (fun hh => h hh.symm), if_neg (by rw [hp]; exact fun hh => h hh.symm)]
    · simp only [setK, if_neg hp, lookup?]
      by_cases hq : p.1 = k1
      · simp [hq]
      · simp [hq, ih]

theorem mem_setK {α : Type} (m : SMap α) (k : String) (v : α) (p : String × α)
    (h : p ∈ setK m k v) : p = (k, v) ∨ p ∈ m := by
  induction m with
  | nil => simpa [setK] using h
  | cons q t ih =>
    by_cases hq : q.1 = k
    · simp only [setK, if_pos hq, List.mem_cons] at h
      rcases h with h | h
      · exact Or.inl h
      · exact Or.inr (List.mem_cons_of_mem _ h)
    · simp only [setK, if_neg hq, List.mem_cons] at h
      rcases h with h | h
      · exact Or.inr (by simp [h])
      · rcases ih h with h1 | h1
        · exact Or.inl h1
        · exact Or.inr (List.mem_cons_of_mem _ h1)

theorem mem_eraseK {α : Type} (m : SMap α) (k : String) (p : String × α)
    (h : p ∈ eraseK m k) : p ∈ m := by
  induction m with
  | nil => simp [eraseK] at h
  | cons q t ih =>
    by_cases hq : q.1 = k
    · simp only [eraseK, if_pos hq] at h
      exact List.mem_cons_of_mem _ h
    · simp only [eraseK, if_neg hq, List.mem_cons] at h
      rcases h with h | h
      · simp [h]
      · exact List.mem_cons_of_mem _ (ih h)

theorem sumV_setK (m : SMap ℤ) (k : String) (v : ℤ) :
    sumV (setK m k v) = sumV m - lookupD m k 0 + v := by
  induction m with
  | nil => simp [setK, sumV, lookupD, lookup?]
  | cons p t ih =>
    by_cases hp : p.1 = k
    · simp [setK, hp, sumV, lookupD, lookup?]
      ring
    · simp only [setK, if_neg hp, sumV, List.map_cons, List.sum_cons, lookupD, lookup?,
        if_neg hp] at *
      omega

theorem sumV_eraseK (m : SMap ℤ) (k : String) :
    sumV (eraseK m k) = sumV m - lookupD m k 0 := by
  induction m with
  | nil => simp [eraseK, sumV, lookupD, lookup?]
  | cons p t ih =>
    by_cases hp : p.1 = k
    · simp [eraseK, hp, sumV, lookupD, lookup?]
    · simp only [eraseK, if_neg hp, sumV, List.map_cons, List.sum_cons, lookupD, lookup?,
        if_neg hp] at *
      omega

theorem lookupD_nonneg (m : SMap ℤ) (k : String)
    (h : ∀ p ∈ m, 0 ≤ p.2) : 0 ≤ lookupD m k 0 := by
  induction m with
  | nil => simp [lookupD, lookup?]
  | cons p t ih =>
    by_cases hp : p.1 = k
    · simpa [lookupD, lookup?, hp] using h p (by simp)
    · simp only [lookupD, lookup?, if_neg hp]
      exact ih (fun q hq => h q (List.mem_cons_of_mem _ hq))

theorem sumV_cons (p : String × ℤ) (t : SMap ℤ) : sumV (p :: t) = p.2 + sumV t := by
  simp [sumV]

theorem sumV_nonneg (m : SMap ℤ) (h : ∀ p ∈ m, 0 ≤ p.2) : 0 ≤ sumV m := by
  refine List.sum_nonneg ?_
  intro x hx
  obtain ⟨p, hp, rfl⟩ := List.mem_map.1 hx
  exact h p hp

theorem lookupD_le_sumV (m : SMap ℤ) (k : String)
    (h : ∀ p ∈ m, 0 ≤ p.2) : lookupD m k 0 ≤ sumV m := by
  induction m with
  | nil => simp [lookupD, lookup?, sumV]
  | cons p t ih =>
    rw [sumV_cons]
    have hsum : 0 ≤ sumV t := sumV_nonneg t (fun q hq => h q (List.mem_cons_of_mem _ hq))
    by_cases hp : p.1 = k
    · simp only [lookupD, lookup?, if_pos hp, Option.getD_some]
      omega
    · simp only [lookupD, lookup?, if_neg hp]
      have h1 := ih (fun q hq => h q (List.mem_cons_of_mem _ hq))
      have h2 := h p (by simp)
      simp only [lookupD] at h1
      omega

theorem length_mapK {α : Type} (m : SMap α) (k : String) (f : α → α) :
    (mapK m k f).length = m.length := by
  induction m with
  | nil => simp [mapK]
  | cons p t ih =>
    by_cases hp : p.1 = k
    · simp [mapK, hp]
    · simp [mapK, hp, ih]

theorem length_eraseK_of_mem {α : Type} (m : SMap α) (k : String)
    (h : lookup? m k ≠ none) : (eraseK m k).length + 1 = m.length := by
  induction m with
  | nil => simp [lookup?] at h
  | cons p t ih =>
    by_cases hp : p.1 = k
    · simp [eraseK, hp]
    · simp only [lookup?, if_neg hp] at h
      simp [eraseK, hp, ih h]

/-! ### C6: the percentile function -/

/-- Written from the spec's words (section 4.C): linear interpolation
between ranks with mathematical floor, no special case for the collapsed
rank. To be compared with the source's `_percentile`. -/
def percentileSpec (D : List ℚ) (p : ℚ) : Option ℚ :=
  if D = [] then none
  else if p ≤ 0 then some (D.getD 0 0)
  else if 100 ≤ p then some (D.getD (D.length - 1) 0)
  else
    let k : ℚ := ((D.length : ℚ) - 1) * (p / 100)
    let f : ℕ := (⌊k⌋).toNat
    let c : ℕ := min (f + 1) (D.length - 1)
    some (D.getD f 0 + (D.getD c 0 - D.getD f 0) * (k - (f : ℚ)))

theorem pyInt_of_nonneg (q : ℚ) (h : 0 ≤ q) : pyInt q = ⌊q⌋ := if_pos h

/-- Evaluation shape of `_percentile` in the interpolating branch, with the
truncated rank and the clamp supplied as hypotheses. -/
theorem percentile_eval (D : List ℚ) (p : ℚ) (f c : ℕ)
    (hne : ¬ D = []) (h0 : ¬ p ≤ 0) (h1 : ¬ 100 ≤ p)
    (hf : pyInt (((D.length : ℚ) - 1) * (p / 100)) = (f : ℤ))
    (hc : min (f + 1) (D.length - 1) = c)
    (hfc : ¬ f = c) :
    _percentile D p = some (D.getD f 0 + (D.getD c 0 - D.getD f 0) *
      ((((D.length : ℚ) - 1) * (p / 100)) - (f : ℚ))) := by
  simp only [_percentile, if_neg hne, if_neg h0, if_neg h1, hf, Int.toNat_natCast, hc,
    if_neg hfc]

/-- C6. For every sorted non-empty duration list `D` and percentile
`p ∈ [0,100]`, the source `_percentile` returns exactly the spec's
linear-interpolation formula (with the documented `D[0]` / `D[-1]`
boundary returns and `null` on empty input), and on `[10,20,30,40,50]`
it yields `p50 = 30`, `p95 = 48`, `p99 = 49.6` exactly. -/
theorem C6_theorem :
    (∀ (D : List ℚ) (p : ℚ), D ≠ [] → 0 ≤ p → p ≤ 100 →
      _percentile D p = percentileSpec D p)
    ∧ _percentile [] 50 = none
    ∧ _percentile [10, 20, 30, 40, 50] 50 = some 30
    ∧ _percentile [10, 20, 30, 40, 50] 95 = some 48
    ∧ _percentile [10, 20, 30, 40, 50] 99 = some (49.6 : ℚ) := by
  refine ⟨?_, by simp [_percentile], ?_, ?_, ?_⟩
  · intro D p hne h0 h1
    by_cases hp0 : p ≤ 0
    · simp [_percentile, percentileSpec, hne, hp0]
    · by_cases hp1 : 100 ≤ p
      · simp [_percentile, percentileSpec, hne, hp0, hp1]
      · have hk : 0 ≤ ((D.length : ℚ) - 1) * (p / 100) := by
          have hl : 1 ≤ D.length := List.length_pos.2 hne
          have hl2 : (1 : ℚ) ≤ (D.length : ℚ) := by exact_mod_cast hl
          have := h0
          nlinarith
        simp only [_percentile, percentileSpec, if_neg hne, if_neg hp0, if_neg hp1,
          pyInt_of_nonneg _ hk]
        split
        · rename_i hfc
          rw [← hfc]
          norm_num
        · rfl
  · have hlen : ([10, 20, 30, 40, 50] : List ℚ).length = 5 := rfl
    have hf : pyInt (((([10, 20, 30, 40, 50] : List ℚ).length : ℚ) - 1) * (50 / 100)) =
        ((2 : ℕ) : ℤ) := by
      rw [hlen]
      have he : (((5 : ℕ) : ℚ) - 1) * (50 / 100) = ((2 : ℤ) : ℚ) / ((1 : ℕ) : ℚ) := by
        norm_num
      rw [pyInt, if_pos (by rw [he]; positivity), he, Rat.floor_intCast_div_natCast]
      decide
    rw [percentile_eval _ _ 2 3 (by simp) (by norm_num) (by norm_num) hf
      (by rw [hlen]; decide) (by decide)]
    rw [hlen]
    norm_num [List.getD]
  · have hlen : ([10, 20, 30, 40, 50] : List ℚ).length = 5 := rfl
    have hf : pyInt (((([10, 20, 30, 40, 50] : List ℚ).length : ℚ) - 1) * (95 / 100)) =
        ((3 : ℕ) : ℤ) := by
      rw [hlen]
      have he : (((5 : ℕ) : ℚ) - 1) * (95 / 100) = ((19 : ℤ) : ℚ) / ((5 : ℕ) : ℚ) := by
        norm_num
      rw [pyInt, if_pos (by rw [he]; positivity), he, Rat.floor_intCast_div_natCast]
      decide
    rw [percentile_eval _ _ 3 4 (by simp) (by norm_num) (by norm_num) hf
      (by rw [hlen]; decide) (by decide)]
    rw [hlen]
    norm_num [List.getD]
  · have hlen : ([10, 20, 30, 40, 50] : List ℚ).length = 5 := rfl
    have hf : pyInt (((([10, 20, 30, 40, 50] : List ℚ).length : ℚ) - 1) * (99 / 100)) =
        ((3 : ℕ) : ℤ) := by
      rw [hlen]
      have he : (((5 : ℕ) : ℚ) - 1) * (99 / 100) = ((99 : ℤ) : ℚ) / ((25 : ℕ) : ℚ) := by
        norm_num
      rw [pyInt, if_pos (by rw [he]; positivity), he, Rat.floor_intCast_div_natCast]
      decide
    rw [percentile_eval _ _ 3 4 (by simp) (by norm_num) (by norm_num) hf
      (by rw [hlen]; decide) (by decide)]
    rw [hlen]
    norm_num [List.getD]

/-- Witness for C6: the hypotheses of the universal part hold at a concrete
input and the theorem applies there. -/
theorem C6_witness :
    ([10, 20, 30] : List ℚ) ≠ [] ∧ (0 : ℚ) ≤ 50 ∧ (50 : ℚ) ≤ 100 ∧
      _percentile [10, 20, 30] 50 = percentileSpec [10, 20, 30] 50 :=
  ⟨by simp, by norm_num, by norm_num,
    C6_theorem.1 [10, 20, 30] 50 (by simp) (by norm_num) (by norm_num)⟩

/-! ### C4: status classes and the 5xx error rate -/

/-- Written from the spec's words (section 4.C): the status class is the
hundreds digit followed by `xx`, clamped to `5xx` for statuses at or above
500. To be compared with the source's `_bucket_status`. -/
def statusClassSpec (status : ℤ) : String :=
  if 500 ≤ status then "5xx" else toString (status / 100) ++ "xx"

/-- Membership of the code's `5xx` bucket: every status at or above 500,
and also every status below 200. -/
theorem bucket5xx_iff (s : ℤ) :
    (_bucket_status s == "5xx") = decide (500 ≤ s ∨ s < 200) := by
  unfold _bucket_status
  split_ifs with h1 h2 h3
  · have hn : ¬ (500 ≤ s ∨ s < 200) := by omega
    simp [hn]
  · have hn : ¬ (500 ≤ s ∨ s < 200) := by omega
    simp [hn]
  · have hn : ¬ (500 ≤ s ∨ s < 200) := by omega
    simp [hn]
  · have hy : 500 ≤ s ∨ s < 200 := by omega
    simp [hy]

/-- C4 (amended). For statuses at or above 200 the histogram class equals
the spec's hundreds-digit formula with the 5xx clamp, and the 5xx error
rate of the global metrics counts exactly the window samples whose status
is at or above 500 or below 200 (out of `n`, `0` when `n = 0`). The
original claim fails for statuses below 200, which the code also buckets
as `5xx` (see the counterexample). -/
theorem C4_theorem :
    (∀ s : ℤ, 200 ≤ s → _bucket_status s = statusClassSpec s)
    ∧ (∀ (cfg : Config) (σ : CState) (now : ℚ),
        (compute_global_metrics cfg σ now).error_rate_5xx =
          (if (_prune_req_deque σ.reqWindow now cfg.windowS).length ≠ 0
           then (((_prune_req_deque σ.reqWindow now cfg.windowS).filter
                  (fun x => decide (500 ≤ x.2.2 ∨ x.2.2 < 200))).length : ℚ) /
                ((_prune_req_deque σ.reqWindow now cfg.windowS).length : ℚ)
           else 0)) := by
  constructor
  · intro s hs
    unfold _bucket_status statusClassSpec
    by_cases h5 : 500 ≤ s
    · rw [if_pos h5, if_neg (by omega), if_neg (by omega), if_neg (by omega)]
    · rw [if_neg h5]
      by_cases h2 : s < 300
      · rw [if_pos (by omega)]
        rw [show s / 100 = 2 by omega]
        decide
      · by_cases h3 : s < 400
        · rw [if_neg (by omega), if_pos (by omega)]
          rw [show s / 100 = 3 by omega]
          decide
        · rw [if_neg (by omega), if_neg (by omega), if_pos (by omega)]
          rw [show s / 100 = 4 by omega]
          decide
  · intro cfg σ now
    have hf : (_prune_req_deque σ.reqWindow now cfg.windowS).filter
        (fun x => _bucket_status x.2.2 == "5xx") =
        (_prune_req_deque σ.reqWindow now cfg.windowS).filter
        (fun x => decide (500 ≤ x.2.2 ∨ x.2.2 < 200)) :=
      List.filter_congr (fun x _ => bucket5xx_iff x.2.2)
    simp only [compute_global_metrics, hf]

/-- Witness for C4: the bucket/formula agreement applies at status 204. -/
theorem C4_witness :
    (200 : ℤ) ≤ 204 ∧ _bucket_status 204 = statusClassSpec 204 :=
  ⟨by norm_num, C4_theorem.1 204 (by norm_num)⟩

/-- Counterexample for C4 as stated: status 100 is bucketed `5xx` by the
code although the spec formula (clamped only at or above 500) gives `1xx`;
with a single status-100 sample in the window the reported 5xx error rate
is 1 although no sample has status at or above 500. -/
theorem C4_counterexample :
    _bucket_status 100 = "5xx"
    ∧ statusClassSpec 100 = "1xx"
    ∧ _bucket_status 100 ≠ statusClassSpec 100
    ∧ (compute_global_metrics {} { initState with reqWindow := [(0, none, 100)] }
        0).error_rate_5xx = 1
    ∧ (({ initState with reqWindow := [(0, none, 100)] } : CState).reqWindow.filter
        (fun x => decide (500 ≤ x.2.2))).length = 0 := by
  refine ⟨by decide, by decide, by decide, ?_, by decide⟩
  have hw : _prune_req_deque ([(0, none, 100)] : List (ℚ × Option ℚ × ℤ)) 0
      (Config.windowS {}) = [(0, none, 100)] := by
    simp only [_prune_req_deque]
    rw [if_neg (by norm_num [Config.windowS])]
  simp only [compute_global_metrics, hw]
  norm_num [_bucket_status, List.filter]

/-! ### C2: publish decisions -/

/-- Characterization of the sampling gate `_should_sample_req`. -/
theorem should_sample_iff (cfg : Config) (e : EventDict) (draw : ℚ) :
    _should_sample_req cfg e draw = true ↔
      (500 ≤ e.status.getD 0 ∨ (∃ d, e.durationMs = some d ∧ cfg.slowMs ≤ d)
        ∨ (0 < cfg.sampleRate ∧ draw < cfg.sampleRate)) := by
  unfold _should_sample_req
  by_cases h1 : 500 ≤ e.status.getD 0
  · simp [h1]
  · rw [if_neg h1]
    cases hd : e.durationMs with
    | some d =>
      by_cases hslow : cfg.slowMs ≤ d
      · simp [hd, hslow]
      · by_cases h2 : cfg.sampleRate ≤ 0
        · simp [hd, hslow, h1, h2, not_lt.2 h2]
        · simp [hd, hslow, h1, h2, not_le.1 h2]
    | none =>
      by_cases h2 : cfg.sampleRate ≤ 0
      · simp [hd, h1, h2, not_lt.2 h2]
      · simp [hd, h1, h2, not_le.1 h2]

/-- C2 (amended). Publish decisions of the ingest dispatcher: `req_start`
events are never published; `span`, `log` and `gauge` events are always
published (the source never clears `should_publish` for the latter two,
contrary to the original claim); a `req`/`req_end` event is published iff
`status ≥ 500`, or `duration_ms` is present and at least `SLOW_MS`, or
`SAMPLE_RATE > 0` and the uniform draw is below `SAMPLE_RATE` — in
particular, with `SAMPLE_RATE = 0` a fast non-5xx `req_end` is never
published. -/
theorem C2_theorem (cfg : Config) (sigOf : String → String) (e : EventDict)
    (now draw : ℚ) (σ : CState) :
    (e.kind = "req_start" → (_ingest_event_dict cfg sigOf e now draw σ).2 = false)
    ∧ (e.kind = "span" → (_ingest_event_dict cfg sigOf e now draw σ).2 = true)
    ∧ (e.kind = "log" → (_ingest_event_dict cfg sigOf e now draw σ).2 = true)
    ∧ (e.kind = "gauge" → (_ingest_event_dict cfg sigOf e now draw σ).2 = true)
    ∧ ((e.kind = "req" ∨ e.kind = "req_end") →
        ((_ingest_event_dict cfg sigOf e now draw σ).2 = true ↔
          (500 ≤ e.status.getD 0 ∨ (∃ d, e.durationMs = some d ∧ cfg.slowMs ≤ d)
            ∨ (0 < cfg.sampleRate ∧ draw < cfg.sampleRate)))) := by
  refine ⟨?_, ?_, ?_, ?_, ?_⟩
  · intro hk
    simp [_ingest_event_dict, hk]
  · intro hk
    simp [_ingest_event_dict, hk]
  · intro hk
    simp [_ingest_event_dict, hk]
  · intro hk
    simp [_ingest_event_dict, hk]
  · intro hk
    have h2 : (_ingest_event_dict cfg sigOf e now draw σ).2 =
        _should_sample_req cfg e draw := by
      rcases hk with hk | hk <;> simp [_ingest_event_dict, hk]
    rw [h2]
    exact should_sample_iff cfg e draw

/-- Concrete `req_start` event used by the C2 witness. -/
def evStartW : EventDict :=
  { blankEvent with kind := "req_start", method := some "GET", path := some "/x" }

/-- Concrete fast, non-5xx `req_end` event used by the C2 witness. -/
def evEndW : EventDict :=
  { blankEvent with
    kind := "req_end"
    method := some "GET"
    path := some "/x"
    status := some 200
    durationMs := some 10 }

/-- Concrete `log` event with a non-empty message. -/
def evLogW : EventDict := { blankEvent with kind := "log", message := some "boom" }

/-- Witness for C2: a concrete `req_start` is not published, and at a
concrete `req_end` with `SAMPLE_RATE = 0`, status 200 and duration 10
below `SLOW_MS = 750`, the gate refuses to publish. -/
theorem C2_witness :
    (_ingest_event_dict {} (fun s => s) evStartW 0 0 initState).2 = false
    ∧ ¬ (_ingest_event_dict { sampleRate := 0 } (fun s => s) evEndW
        0 0 initState).2 = true := by
  constructor
  · exact (C2_theorem {} (fun s => s) evStartW 0 0 initState).1 rfl
  · rw [(C2_theorem { sampleRate := 0 } (fun s => s) evEndW
      0 0 initState).2.2.2.2 (Or.inr rfl)]
    simp [evEndW, blankEvent]
    norm_num

/-- Counterexample for C2 as stated: a `log` event is published (appended
to the ring and fanned out), although the claim says `log` events never
are. -/
theorem C2_counterexample :
    (_ingest_event_dict {} (fun s => s) evLogW 0 0 initState).2 = true := by
  simp [_ingest_event_dict, evLogW, blankEvent]

/-! ### C9: matched and unmatched `req_end` -/

/-- Fields that `_record_recent_request` leaves untouched. -/
theorem record_recent_keeps (cfg : Config) (d : EventDict) (now : ℚ) (σ : CState) :
    (_record_recent_request cfg d now σ).reqWindow = σ.reqWindow
    ∧ (_record_recent_request cfg d now σ).endpointWindows = σ.endpointWindows
    ∧ (_record_recent_request cfg d now σ).errorSigWindow = σ.errorSigWindow
    ∧ (_record_recent_request cfg d now σ).errorSigCount = σ.errorSigCount
    ∧ (_record_recent_request cfg d now σ).inflightByService = σ.inflightByService
    ∧ (_record_recent_request cfg d now σ).inflightGlobal = σ.inflightGlobal
    ∧ (_record_recent_request cfg d now σ).inflightRequests = σ.inflightRequests
    ∧ (_record_recent_request cfg d now σ).traceStore = σ.traceStore
    ∧ (_record_recent_request cfg d now σ).events = σ.events := by
  unfold _record_recent_request
  cases d.status <;> simp

/-- Fields that the publish step leaves untouched. -/
theorem pubRing_keeps (cfg : Config) (σ : CState) (d : EventDict) (pub : Bool) :
    (pubRing cfg σ d pub).reqWindow = σ.reqWindow
    ∧ (pubRing cfg σ d pub).endpointWindows = σ.endpointWindows
    ∧ (pubRing cfg σ d pub).recentReqs = σ.recentReqs
    ∧ (pubRing cfg σ d pub).errorSigWindow = σ.errorSigWindow
    ∧ (pubRing cfg σ d pub).errorSigCount = σ.errorSigCount
    ∧ (pubRing cfg σ d pub).inflightByService = σ.inflightByService
    ∧ (pubRing cfg σ d pub).inflightGlobal = σ.inflightGlobal
    ∧ (pubRing cfg σ d pub).inflightRequests = σ.inflightRequests
    ∧ (pubRing cfg σ d pub).traceStore = σ.traceStore := by
  unfold pubRing
  cases pub <;> simp

/-- C9. A `req_end` whose request id has a matching `INFLIGHT_REQUESTS`
entry decrements the global counter and the recorded service's counter
(each floored at zero) and removes the entry; a `req_end` with no matching
entry (including one with a falsy request id) leaves the in-flight
counters and `INFLIGHT_REQUESTS` unchanged; in both cases the request
sample is appended to the global rolling window (then pruned). -/
theorem C9_theorem (cfg : Config) (sigOf : String → String) (e : EventDict)
    (now draw : ℚ) (σ : CState) (hk : e.kind = "req_end") :
    (∀ r svc t0, truthyS e.requestId = some r →
      lookup? σ.inflightRequests r = some (svc, t0) →
      ((_ingest_event_dict cfg sigOf e now draw σ).1.inflightGlobal =
          (if σ.inflightGlobal - 1 < 0 then 0 else σ.inflightGlobal - 1)
        ∧ (_ingest_event_dict cfg sigOf e now draw σ).1.inflightByService =
          setK σ.inflightByService svc
            (if lookupD σ.inflightByService svc 0 - 1 < 0 then 0
             else lookupD σ.inflightByService svc 0 - 1)
        ∧ (_ingest_event_dict cfg sigOf e now draw σ).1.inflightRequests =
          eraseK σ.inflightRequests r))
    ∧ ((∀ r, truthyS e.requestId = some r → lookup? σ.inflightRequests r = none) →
      ((_ingest_event_dict cfg sigOf e now draw σ).1.inflightGlobal = σ.inflightGlobal
        ∧ (_ingest_event_dict cfg sigOf e now draw σ).1.inflightByService =
          σ.inflightByService
        ∧ (_ingest_event_dict cfg sigOf e now draw σ).1.inflightRequests =
          σ.inflightRequests))
    ∧ (_ingest_event_dict cfg sigOf e now draw σ).1.reqWindow =
      _prune_req_deque (σ.reqWindow ++ [(e.ts.getD now, e.durationMs, e.status.getD 0)])
        now cfg.windowS := by
  refine ⟨?_, ?_, ?_⟩
  · intro r svc t0 hr hl
    simp [_ingest_event_dict, hk, branchReq, hr, hl, record_recent_keeps, pubRing_keeps]
  · intro hno
    cases hr : truthyS e.requestId with
    | none =>
      simp [_ingest_event_dict, hk, branchReq, hr, record_recent_keeps, pubRing_keeps]
    | some r =>
      simp [_ingest_event_dict, hk, branchReq, hr, hno r hr, record_recent_keeps,
        pubRing_keeps]
  · cases hr : truthyS e.requestId with
    | none =>
      simp [_ingest_event_dict, hk, branchReq, hr, record_recent_keeps, pubRing_keeps]
    | some r =>
      cases hl : lookup? σ.inflightRequests r with
      | none =>
        simp [_ingest_event_dict, hk, branchReq, hr, hl, record_recent_keeps,
          pubRing_keeps]
      | some sv =>
        simp [_ingest_event_dict, hk, branchReq, hr, hl, record_recent_keeps,
          pubRing_keeps]

/-- Concrete unmatched `req_end` (spec scenario 2) used by the C9 witness. -/
def evEndB : EventDict :=
  { blankEvent with
    kind := "req_end"
    requestId := some "b"
    method := some "GET"
    path := some "/x"
    status := some 200 }

/-- Witness for C9: feeding only a `req_end` with request id `b` into a
fresh collector leaves the in-flight state unchanged. -/
theorem C9_witness :
    (_ingest_event_dict {} (fun s => s) evEndB 5 0 initState).1.inflightGlobal =
      initState.inflightGlobal
    ∧ (_ingest_event_dict {} (fun s => s) evEndB 5 0 initState).1.inflightByService =
      initState.inflightByService
    ∧ (_ingest_event_dict {} (fun s => s) evEndB 5 0 initState).1.inflightRequests =
      initState.inflightRequests :=
  (C9_theorem {} (fun s => s) evEndB 5 0 initState rfl).2.1 (fun _ _ => rfl)

/-! ### C10: duplicate `req_start` under one request id -/

/-- Parametric `req_start` event with request id `r` and service `s`. -/
def reqStartRS (r s : String) : EventDict :=
  { blankEvent with
    kind := "req_start"
    service := some s
    requestId := some r
    method := some "GET"
    path := some "/x" }

/-- Parametric `req_end` event with request id `r` and service `s`. -/
def reqEndRS (r s : String) : EventDict :=
  { blankEvent with
    kind := "req_end"
    service := some s
    requestId := some r
    method := some "GET"
    path := some "/x"
    status := some 200 }

/-- C10. Two `req_start` events with the same non-empty request id `r` and
service `s` (no intervening `req_end`) leave both counters at 2 but a
single `INFLIGHT_REQUESTS` entry for `r` (the second overwrites the
first); the subsequent matching `req_end` decrements each counter exactly
once, leaving both at 1 and the entry removed. -/
theorem C10_theorem (cfg : Config) (sigOf : String → String) (r s : String)
    (hr : r ≠ "") (t1 t2 t3 d1 d2 d3 : ℚ) :
    (run cfg sigOf [Op.ev (reqStartRS r s) t1 d1, Op.ev (reqStartRS r s) t2 d2]
        initState).inflightGlobal = 2
    ∧ lookupD (run cfg sigOf [Op.ev (reqStartRS r s) t1 d1, Op.ev (reqStartRS r s) t2 d2]
        initState).inflightByService s 0 = 2
    ∧ (run cfg sigOf [Op.ev (reqStartRS r s) t1 d1, Op.ev (reqStartRS r s) t2 d2]
        initState).inflightRequests = [(r, (s, t2))]
    ∧ (run cfg sigOf [Op.ev (reqStartRS r s) t1 d1, Op.ev (reqStartRS r s) t2 d2,
        Op.ev (reqEndRS r s) t3 d3] initState).inflightGlobal = 1
    ∧ lookupD (run cfg sigOf [Op.ev (reqStartRS r s) t1 d1, Op.ev (reqStartRS r s) t2 d2,
        Op.ev (reqEndRS r s) t3 d3] initState).inflightByService s 0 = 1
    ∧ (run cfg sigOf [Op.ev (reqStartRS r s) t1 d1, Op.ev (reqStartRS r s) t2 d2,
        Op.ev (reqEndRS r s) t3 d3] initState).inflightRequests = [] := by
  refine ⟨?_, ?_, ?_, ?_, ?_, ?_⟩ <;>
    simp [run, opStep, _ingest_event_dict, reqStartRS, reqEndRS, blankEvent,
      branchReqStart, branchReq, truthyS, hr, pubRing_keeps, _record_recent_request,
      initState, setK, lookupD, lookup?, eraseK]

/-- Witness for C10: the scenario at request id `a`, service `svc`. -/
theorem C10_witness :
    (run {} (fun s => s) [Op.ev (reqStartRS "a" "svc") 1 0,
        Op.ev (reqStartRS "a" "svc") 2 0] initState).inflightGlobal = 2
    ∧ (run {} (fun s => s) [Op.ev (reqStartRS "a" "svc") 1 0,
        Op.ev (reqStartRS "a" "svc") 2 0, Op.ev (reqEndRS "a" "svc") 3 0]
        initState).inflightGlobal = 1 :=
  ⟨(C10_theorem {} (fun s => s) "a" "svc" (by decide) 1 2 3 0 0 0).1,
   (C10_theorem {} (fun s => s) "a" "svc" (by decide) 1 2 3 0 0 0).2.2.2.1⟩

/-! ### C7: LRU trace-store bound and eviction order -/

theorem evictStore_length (st : SMap Bundle) (m : ℕ) :
    (evictStore st m).length = min st.length m := by
  simp only [evictStore, List.length_drop]
  omega

theorem updStore_len (st : SMap Bundle) (ridT : Option String) (live : Bool)
    (f : Bundle → Bundle) : (updStore st ridT live f).length = st.length := by
  unfold updStore
  cases ridT with
  | none => rfl
  | some r =>
    cases live with
    | false => rfl
    | true => simp [length_mapK]

theorem touchStore_len (cfg : Config) (st : SMap Bundle) (ridT : Option String)
    (c : Bool) (h : st.length ≤ cfg.traceStoreMax) :
    (touchStore cfg st ridT c).2.length ≤ cfg.traceStoreMax := by
  unfold touchStore
  cases ridT with
  | none => exact h
  | some r =>
    dsimp only
    cases hl : lookup? st r with
    | some b =>
      simp only [evictStore_length]
      omega
    | none =>
      cases c with
      | true =>
        simp only [Bool.true_eq, if_pos, evictStore_length]
        omega
      | false => simpa using h

theorem branchReqStart_store_len (d : EventDict) (now : ℚ) (ridT : Option String)
    (live : Bool) (σ : CState) :
    (branchReqStart d now ridT live σ).traceStore.length = σ.traceStore.length := by
  cases ridT <;> simp [branchReqStart, updStore_len]

theorem branchReq_store_len (cfg : Config) (d : EventDict) (now : ℚ)
    (ridT : Option String) (live : Bool) (σ : CState) :
    (branchReq cfg d now ridT live σ).traceStore.length = σ.traceStore.length := by
  by_cases hk : d.kind = "req_end"
  · cases ridT with
    | none => simp [branchReq, hk, record_recent_keeps, updStore_len]
    | some r =>
      simp only [branchReq, hk, if_pos]
      split
      · simp [record_recent_keeps, updStore_len]
      · simp [record_recent_keeps, updStore_len]
  · cases ridT <;> simp [branchReq, hk, record_recent_keeps, updStore_len]

theorem branchLog_store_len (cfg : Config) (sigOf : String → String) (d : EventDict)
    (now : ℚ) (ridT : Option String) (live : Bool) (σ : CState) :
    (branchLog cfg sigOf d now ridT live σ).traceStore.length = σ.traceStore.length := by
  cases ht : truthyS d.trace <;> cases ridT <;> simp [branchLog, ht, updStore_len]

theorem branchGauge_store_len (d : EventDict) (σ : CState) :
    (branchGauge d σ).traceStore.length = σ.traceStore.length := by
  by_cases hn : d.name = some "inflight_delta" <;> simp [branchGauge, hn]

theorem branchSpan_store_len (cfg : Config) (d : EventDict) (ridT : Option String)
    (live : Bool) (σ : CState) :
    (branchSpan cfg d ridT live σ).traceStore.length = σ.traceStore.length := by
  cases ridT <;> simp [branchSpan, updStore_len]

/-- One ingest step keeps the trace store within `TRACE_STORE_MAX`. -/
theorem ingest_store_len (cfg : Config) (sigOf : String → String) (e : EventDict)
    (now draw : ℚ) (σ : CState) (h : σ.traceStore.length ≤ cfg.traceStoreMax) :
    (_ingest_event_dict cfg sigOf e now draw σ).1.traceStore.length ≤
      cfg.traceStoreMax := by
  have htb := touchStore_len cfg σ.traceStore (truthyS e.requestId)
    (e.kind == "req_start" || e.kind == "req_end" || e.kind == "req" ||
      e.kind == "log" || e.kind == "span") h
  unfold _ingest_event_dict
  by_cases h1 : e.kind = "req_start"
  · simp [h1, pubRing_keeps, branchReqStart_store_len] at htb ⊢
    exact htb
  · by_cases h2 : e.kind = "req" ∨ e.kind = "req_end"
    · have h2' : ¬ e.kind = "req_start" := h1
      simp only [if_neg h2', if_pos h2]
      simp [pubRing_keeps, branchReq_store_len] at htb ⊢
      rcases h2 with h | h <;> simp [h] at htb ⊢ <;> exact htb
    · by_cases h3 : e.kind = "log"
      · simp [h1, h2, h3, pubRing_keeps, branchLog_store_len] at htb ⊢
        exact htb
      · by_cases h4 : e.kind = "gauge"
        · simp [h1, h2, h3, h4, pubRing_keeps, branchGauge_store_len] at htb ⊢
          exact htb
        · by_cases h5 : e.kind = "span"
          · simp [h1, h2, h3, h4, h5, pubRing_keeps, branchSpan_store_len] at htb ⊢
            exact htb
          · simp [h1, h2, h3, h4, h5, pubRing_keeps] at htb ⊢
            exact htb

/-- Any operation sequence keeps the trace store within `TRACE_STORE_MAX`. -/
theorem run_store_len (cfg : Config) (sigOf : String → String) (ops : List Op)
    (σ : CState) (h : σ.traceStore.length ≤ cfg.traceStoreMax) :
    (run cfg sigOf ops σ).traceStore.length ≤ cfg.traceStoreMax := by
  induction ops generalizing σ with
  | nil => exact h
  | cons op t ih =>
    refine ih (opStep cfg sigOf σ op) ?_
    cases op with
    | ev e now draw => exact ingest_store_len cfg sigOf e now draw σ h
    | pruneSigsAt now => simpa [opStep] using h

/-- Config with `TRACE_STORE_MAX = 2`, for the LRU scenarios. -/
def cfgLru : Config := { traceStoreMax := 2 }

/-- Span event carrying only a request id, used to create or touch a trace
bundle. -/
def spanEv (rid : String) : EventDict :=
  { blankEvent with kind := "span", requestId := some rid, name := some "s" }

/-- C7. The trace store never exceeds `TRACE_STORE_MAX` after any sequence
of operations, and eviction is by last-touch order: with
`TRACE_STORE_MAX = 2`, ingesting events for `A` then `B`, touching `A`,
then ingesting `C` leaves exactly `A` and `C` (in that recency order). -/
theorem C7_theorem :
    (∀ (cfg : Config) (sigOf : String → String) (ops : List Op),
      (run cfg sigOf ops initState).traceStore.length ≤ cfg.traceStoreMax)
    ∧ keysOf (run cfgLru (fun s => s)
        [Op.ev (spanEv "A") 1 0, Op.ev (spanEv "B") 2 0,
         Op.ev (spanEv "A") 3 0, Op.ev (spanEv "C") 4 0]
        initState).traceStore = ["A", "C"] := by
  constructor
  · intro cfg sigOf ops
    exact run_store_len cfg sigOf ops initState (by simp [initState])
  · decide

/-! ### C3: reads and LRU recency -/

/-- Ingest-side lookups do promote: after `_get_trace_bundle` touches an
existing id, that id sits at the most-recently-used end of the store. -/
theorem touch_promotes (cfg : Config) (st : SMap Bundle) (r : String) (b : Bundle)
    (c : Bool) (hm : 1 ≤ cfg.traceStoreMax) (hl : lookup? st r = some b) :
    (touchStore cfg st (some r) c).2.getLast? = some (r, b) := by
  unfold touchStore
  dsimp only
  rw [hl]
  dsimp only
  unfold evictStore
  have hn : (eraseK st r ++ [(r, b)]).length - cfg.traceStoreMax ≤
      (eraseK st r).length := by
    simp [List.length_append]
    omega
  rw [List.drop_append_of_le_length hn]
  exact List.getLast?_concat _

/-- C3 (amended). The single-bundle query `GET /trace/<request_id>` reads
`TRACE_STORE.get` directly and leaves the store (hence every bundle's LRU
position) unchanged; only the ingest-side lookup `_get_trace_bundle`
promotes the touched id to most-recently-used position. -/
theorem C3_theorem :
    (∀ (σ : CState) (rid : String), (trace_detail σ rid).2 = σ)
    ∧ (∀ (cfg : Config) (st : SMap Bundle) (r : String) (b : Bundle) (c : Bool),
        1 ≤ cfg.traceStoreMax → lookup? st r = some b →
        (touchStore cfg st (some r) c).2.getLast? = some (r, b)) :=
  ⟨fun _ _ => rfl, fun cfg st r b c hm hl => touch_promotes cfg st r b c hm hl⟩

/-- Witness for C3: the ingest-side touch of an existing bundle at id `A`
moves it to the most-recent end. -/
theorem C3_witness :
    (1 : ℕ) ≤ cfgLru.traceStoreMax
    ∧ lookup? [("A", emptyBundle)] "A" = some emptyBundle
    ∧ (touchStore cfgLru [("A", emptyBundle)] (some "A") true).2.getLast? =
      some ("A", emptyBundle) :=
  ⟨by decide, by decide,
    C3_theorem.2 cfgLru [("A", emptyBundle)] "A" emptyBundle true (by decide) (by decide)⟩

/-- Counterexample for C3 as stated: with `TRACE_STORE_MAX = 2`, after
ingesting bundles `A` then `B`, the `/trace/A` read leaves the store
unchanged with `A` still least-recent, so a subsequent ingest of `C`
evicts `A` — whereas the claim (read promotes recency, as ingest-side
lookups do) would require `B` to be evicted and `A` retained. -/
theorem C3_counterexample :
    (trace_detail (run cfgLru (fun s => s)
        [Op.ev (spanEv "A") 1 0, Op.ev (spanEv "B") 2 0] initState) "A").2.traceStore =
      (run cfgLru (fun s => s)
        [Op.ev (spanEv "A") 1 0, Op.ev (spanEv "B") 2 0] initState).traceStore
    ∧ keysOf (run cfgLru (fun s => s)
        [Op.ev (spanEv "A") 1 0, Op.ev (spanEv "B") 2 0] initState).traceStore =
      ["A", "B"]
    ∧ lookup? (run cfgLru (fun s => s) [Op.ev (spanEv "C") 3 0]
        ((trace_detail (run cfgLru (fun s => s)
          [Op.ev (spanEv "A") 1 0, Op.ev (spanEv "B") 2 0] initState) "A").2)).traceStore
        "A" = none
    ∧ keysOf (run cfgLru (fun s => s) [Op.ev (spanEv "C") 3 0]
        ((trace_detail (run cfgLru (fun s => s)
          [Op.ev (spanEv "A") 1 0, Op.ev (spanEv "B") 2 0] initState) "A").2)).traceStore =
      ["B", "C"] := by
  refine ⟨rfl, by decide, by decide, by decide⟩

/-! ### C5: tailer JSON path vs direct POST /ingest -/

/-- C5 (amended). For a decoded JSON line of kind `req`/`req_end`/
`req_start` that explicitly carries `service` and `meta`, has the fields
required by the matching pydantic model (`method`, `path`, and `status`
for the end kinds), and carries no fields outside that model, the tailer's
normalization coincides with the POST body normalization, so injecting it
into the dispatcher mutates the aggregates and decides publishing exactly
like the authorized POST. The original unconditional claim fails when
`service` is absent: the tailer defaults it to the configured tail service
while POST defaults it to `unknown` (see the counterexample). -/
theorem C5_theorem (b : EventDict) (svc : String) (now : ℚ)
    (hk : b.kind = "req" ∨ b.kind = "req_end" ∨ b.kind = "req_start")
    (hsvc : b.service.isSome = true)
    (hmeta : b.meta.isSome = true)
    (hm : b.method.isSome = true)
    (hp : b.path.isSome = true)
    (hst : b.kind = "req_start" → b.status = none ∧ b.durationMs = none)
    (hst2 : ¬ b.kind = "req_start" → b.status.isSome = true)
    (hx : b.level = none ∧ b.logger = none ∧ b.message = none ∧ b.trace = none ∧
      b.name = none ∧ b.value = none) :
    parse_access_line_json b svc now = postNormReq b now
    ∧ (∀ (cfg : Config) (sigOf : String → String) (draw : ℚ) (σ : CState),
        ingestViaTailer cfg sigOf b svc now draw σ =
          ingestViaPost cfg sigOf b now draw σ) := by
  have hmain : parse_access_line_json b svc now = postNormReq b now := by
    obtain ⟨hle, hlo, hms, htr, hna, hva⟩ := hx
    rw [Option.isSome_iff_exists] at hsvc hmeta hm hp
    obtain ⟨s0, hs0⟩ := hsvc
    obtain ⟨m0, hm0⟩ := hmeta
    obtain ⟨me0, hme0⟩ := hm
    obtain ⟨pa0, hpa0⟩ := hp
    rcases hk with hk | hk | hk
    · have hss := hst2 (by rw [hk]; decide)
      rw [Option.isSome_iff_exists] at hss
      obtain ⟨st0, hss0⟩ := hss
      obtain ⟨⟩ := b
      simp only at hk hs0 hm0 hme0 hpa0 hss0 hle hlo hms htr hna hva
      subst hk hs0 hm0 hme0 hpa0 hss0 hle hlo hms htr hna hva
      simp [parse_access_line_json, postNormReq]
    · have hss := hst2 (by rw [hk]; decide)
      rw [Option.isSome_iff_exists] at hss
      obtain ⟨st0, hss0⟩ := hss
      obtain ⟨⟩ := b
      simp only at hk hs0 hm0 hme0 hpa0 hss0 hle hlo hms htr hna hva
      subst hk hs0 hm0 hme0 hpa0 hss0 hle hlo hms htr hna hva
      simp [parse_access_line_json, postNormReq]
    · obtain ⟨hsn, hdn⟩ := hst hk
      obtain ⟨⟩ := b
      simp only at hk hs0 hm0 hme0 hpa0 hsn hdn hle hlo hms htr hna hva
      subst hk hs0 hm0 hme0 hpa0 hsn hdn hle hlo hms htr hna hva
      simp [parse_access_line_json, postNormReq]
  refine ⟨hmain, fun cfg sigOf draw σ => ?_⟩
  unfold ingestViaTailer ingestViaPost
  rw [hmain]

/-- Complete `req` body (service and meta explicit) for the C5 witness. -/
def wBody : EventDict :=
  { blankEvent with
    kind := "req"
    service := some "web"
    method := some "GET"
    path := some "/y"
    status := some 200
    meta := some emptyMeta }

/-- Witness for C5: the two normalizations agree on a complete `req` body
and so does the full ingest pipeline on a fresh state. -/
theorem C5_witness :
    parse_access_line_json wBody "tail" 7 = postNormReq wBody 7
    ∧ ingestViaTailer {} (fun s => s) wBody "tail" 7 0 initState =
      ingestViaPost {} (fun s => s) wBody 7 0 initState :=
  ⟨(C5_theorem wBody "tail" 7 (Or.inl rfl) rfl rfl rfl rfl
      (fun h => absurd h (by decide)) (fun _ => rfl)
      ⟨rfl, rfl, rfl, rfl, rfl, rfl⟩).1,
   (C5_theorem wBody "tail" 7 (Or.inl rfl) rfl rfl rfl rfl
      (fun h => absurd h (by decide)) (fun _ => rfl)
      ⟨rfl, rfl, rfl, rfl, rfl, rfl⟩).2 {} (fun s => s) 0 initState⟩

/-- Body without an explicit `service`, as a tailer with configured
service `svcA` would see it. -/
def noSvcBody : EventDict :=
  { blankEvent with
    kind := "req_start"
    method := some "GET"
    path := some "/x"
    meta := some emptyMeta }

/-- Counterexample for C5 as stated: a JSON `req_start` line without a
`service` field is ingested by the tailer with the configured service
`svcA` but by POST with service `unknown`, so the aggregate mutations
differ (`INFLIGHT_BY_SERVICE` gains the key `svcA` in one case and
`unknown` in the other). -/
theorem C5_counterexample :
    ingestViaTailer {} (fun s => s) noSvcBody "svcA" 0 0 initState ≠
      ingestViaPost {} (fun s => s) noSvcBody 0 0 initState := by
  decide

/-! ### C1: in-flight counters -/

/-- Core floor-adjustment step shared by the `req_end` decrement and the
gauge delta: both counters move by the same delta and are floored at zero
independently, which preserves nonnegativity and the global-below-sum
inequality (but not equality). -/
theorem adjFloorInv (m : SMap ℤ) (g x y : ℤ) (k : String)
    (hm : ∀ p ∈ m, 0 ≤ p.2) (_hg : 0 ≤ g) (hgs : g ≤ sumV m)
    (hxy : x - lookupD m k 0 = y - g) :
    0 ≤ (if y < 0 then 0 else y)
    ∧ (∀ p ∈ setK m k (if x < 0 then 0 else x), 0 ≤ p.2)
    ∧ (if y < 0 then 0 else y) ≤ sumV (setK m k (if x < 0 then 0 else x)) := by
  have hx := lookupD_nonneg m k hm
  have hls := lookupD_le_sumV m k hm
  have hsum := sumV_setK m k (if x < 0 then 0 else x)
  refine ⟨by split_ifs <;> omega, ?_, ?_⟩
  · intro p hp
    rcases mem_setK _ _ _ _ hp with h | h
    · rw [h]
      dsimp only
      split_ifs <;> omega
    · exact hm p h
  · rw [hsum]
    split_ifs <;> omega

/-- Increment step of `req_start`: no floor, both counters up by one. -/
theorem adjIncrInv (m : SMap ℤ) (g : ℤ) (k : String)
    (hm : ∀ p ∈ m, 0 ≤ p.2) (_hg : 0 ≤ g) (hgs : g ≤ sumV m) :
    0 ≤ g + 1
    ∧ (∀ p ∈ setK m k (lookupD m k 0 + 1), 0 ≤ p.2)
    ∧ g + 1 ≤ sumV (setK m k (lookupD m k 0 + 1)) := by
  have hx := lookupD_nonneg m k hm
  have hsum := sumV_setK m k (lookupD m k 0 + 1)
  refine ⟨by omega, ?_, by omega⟩
  intro p hp
  rcases mem_setK _ _ _ _ hp with h | h
  · rw [h]
    dsimp only
    omega
  · exact hm p h

/-- In-flight projections of the `req_start` branch. -/
theorem branchReqStart_inflight (d : EventDict) (now : ℚ) (ridT : Option String)
    (live : Bool) (σ : CState) :
    (branchReqStart d now ridT live σ).inflightGlobal = σ.inflightGlobal + 1
    ∧ (branchReqStart d now ridT live σ).inflightByService =
      setK σ.inflightByService (d.service.getD "unknown")
        (lookupD σ.inflightByService (d.service.getD "unknown") 0 + 1) := by
  cases ridT <;> simp [branchReqStart]

/-- Fields the `log` branch leaves untouched. -/
theorem branchLog_keeps (cfg : Config) (sigOf : String → String) (d : EventDict)
    (now : ℚ) (ridT : Option String) (live : Bool) (σ : CState) :
    (branchLog cfg sigOf d now ridT live σ).reqWindow = σ.reqWindow
    ∧ (branchLog cfg sigOf d now ridT live σ).endpointWindows = σ.endpointWindows
    ∧ (branchLog cfg sigOf d now ridT live σ).recentReqs = σ.recentReqs
    ∧ (branchLog cfg sigOf d now ridT live σ).inflightByService = σ.inflightByService
    ∧ (branchLog cfg sigOf d now ridT live σ).inflightGlobal = σ.inflightGlobal
    ∧ (branchLog cfg sigOf d now ridT live σ).inflightRequests = σ.inflightRequests
    ∧ (branchLog cfg sigOf d now ridT live σ).events = σ.events := by
  cases ht : truthyS d.trace <;> cases ridT <;> simp [branchLog, ht]

/-- Fields the `span` branch leaves untouched. -/
theorem branchSpan_keeps (cfg : Config) (d : EventDict) (ridT : Option String)
    (live : Bool) (σ : CState) :
    (branchSpan cfg d ridT live σ).reqWindow = σ.reqWindow
    ∧ (branchSpan cfg d ridT live σ).endpointWindows = σ.endpointWindows
    ∧ (branchSpan cfg d ridT live σ).recentReqs = σ.recentReqs
    ∧ (branchSpan cfg d ridT live σ).errorSigWindow = σ.errorSigWindow
    ∧ (branchSpan cfg d ridT live σ).errorSigCount = σ.errorSigCount
    ∧ (branchSpan cfg d ridT live σ).inflightByService = σ.inflightByService
    ∧ (branchSpan cfg d ridT live σ).inflightGlobal = σ.inflightGlobal
    ∧ (branchSpan cfg d ridT live σ).inflightRequests = σ.inflightRequests
    ∧ (branchSpan cfg d ridT live σ).events = σ.events := by
  cases ridT <;> simp [branchSpan]

/-- One ingest step preserves nonnegativity of all in-flight counters and
keeps the global counter at or below the per-service sum. -/
theorem ingest_inflight_inv (cfg : Config) (sigOf : String → String) (e : EventDict)
    (now draw : ℚ) (σ : CState)
    (h1 : 0 ≤ σ.inflightGlobal)
    (h2 : ∀ p ∈ σ.inflightByService, 0 ≤ p.2)
    (h3 : σ.inflightGlobal ≤ sumV σ.inflightByService) :
    0 ≤ (_ingest_event_dict cfg sigOf e now draw σ).1.inflightGlobal
    ∧ (∀ p ∈ (_ingest_event_dict cfg sigOf e now draw σ).1.inflightByService, 0 ≤ p.2)
    ∧ (_ingest_event_dict cfg sigOf e now draw σ).1.inflightGlobal ≤
      sumV (_ingest_event_dict cfg sigOf e now draw σ).1.inflightByService := by
  by_cases k1 : e.kind = "req_start"
  · have hmain : (_ingest_event_dict cfg sigOf e now draw σ).1.inflightGlobal =
        σ.inflightGlobal + 1
        ∧ (_ingest_event_dict cfg sigOf e now draw σ).1.inflightByService =
          setK σ.inflightByService (e.service.getD "unknown")
            (lookupD σ.inflightByService (e.service.getD "unknown") 0 + 1) := by
      constructor <;>
        simp [_ingest_event_dict, k1, pubRing_keeps, branchReqStart_inflight]
    rw [hmain.1, hmain.2]
    have ha := adjIncrInv σ.inflightByService σ.inflightGlobal
      (e.service.getD "unknown") h2 h1 h3
    exact ⟨ha.1, ha.2.1, ha.2.2⟩
  · by_cases k2 : e.kind = "req" ∨ e.kind = "req_end"
    · by_cases hk : e.kind = "req_end"
      · rcases hcase : truthyS e.requestId with _ | r
        · have hmain : (_ingest_event_dict cfg sigOf e now draw σ).1.inflightGlobal =
              σ.inflightGlobal
              ∧ (_ingest_event_dict cfg sigOf e now draw σ).1.inflightByService =
                σ.inflightByService := by
            constructor <;>
              simp [_ingest_event_dict, k1, k2, branchReq, hk, hcase,
                record_recent_keeps, pubRing_keeps]
          rw [hmain.1, hmain.2]
          exact ⟨h1, h2, h3⟩
        · rcases hl : lookup? σ.inflightRequests r with _ | sv
          · have hmain : (_ingest_event_dict cfg sigOf e now draw σ).1.inflightGlobal =
                σ.inflightGlobal
                ∧ (_ingest_event_dict cfg sigOf e now draw σ).1.inflightByService =
                  σ.inflightByService := by
              constructor <;>
                simp [_ingest_event_dict, k1, k2, branchReq, hk, hcase, hl,
                  record_recent_keeps, pubRing_keeps]
            rw [hmain.1, hmain.2]
            exact ⟨h1, h2, h3⟩
          · have hmain : (_ingest_event_dict cfg sigOf e now draw σ).1.inflightGlobal =
                (if σ.inflightGlobal - 1 < 0 then 0 else σ.inflightGlobal - 1)
                ∧ (_ingest_event_dict cfg sigOf e now draw σ).1.inflightByService =
                  setK σ.inflightByService sv.1
                    (if lookupD σ.inflightByService sv.1 0 - 1 < 0 then 0
                     else lookupD σ.inflightByService sv.1 0 - 1) := by
              constructor <;>
                simp [_ingest_event_dict, k1, k2, branchReq, hk, hcase, hl,
                  record_recent_keeps, pubRing_keeps]
            rw [hmain.1, hmain.2]
            have ha := adjFloorInv σ.inflightByService σ.inflightGlobal
              (lookupD σ.inflightByService sv.1 0 - 1) (σ.inflightGlobal - 1) sv.1
              h2 h1 h3 (by omega)
            exact ⟨ha.1, ha.2.1, ha.2.2⟩
      · have hreq : e.kind = "req" := k2.resolve_right hk
        have hmain : (_ingest_event_dict cfg sigOf e now draw σ).1.inflightGlobal =
            σ.inflightGlobal
            ∧ (_ingest_event_dict cfg sigOf e now draw σ).1.inflightByService =
              σ.inflightByService := by
          constructor <;>
            simp [_ingest_event_dict, k1, k2, branchReq, hk, hreq,
              record_recent_keeps, pubRing_keeps]
        rw [hmain.1, hmain.2]
        exact ⟨h1, h2, h3⟩
    · by_cases k3 : e.kind = "log"
      · have hmain : (_ingest_event_dict cfg sigOf e now draw σ).1.inflightGlobal =
            σ.inflightGlobal
            ∧ (_ingest_event_dict cfg sigOf e now draw σ).1.inflightByService =
              σ.inflightByService := by
          constructor <;>
            simp [_ingest_event_dict, k1, k2, k3, branchLog_keeps, pubRing_keeps]
        rw [hmain.1, hmain.2]
        exact ⟨h1, h2, h3⟩
      · by_cases k4 : e.kind = "gauge"
        · by_cases hn : e.name = some "inflight_delta"
          · have hmain : (_ingest_event_dict cfg sigOf e now draw σ).1.inflightGlobal =
                (if σ.inflightGlobal + pyInt (e.value.getD 0) < 0 then 0
                 else σ.inflightGlobal + pyInt (e.value.getD 0))
                ∧ (_ingest_event_dict cfg sigOf e now draw σ).1.inflightByService =
                  setK σ.inflightByService (e.service.getD "unknown")
                    (if lookupD σ.inflightByService (e.service.getD "unknown") 0 +
                        pyInt (e.value.getD 0) < 0 then 0
                     else lookupD σ.inflightByService (e.service.getD "unknown") 0 +
                        pyInt (e.value.getD 0)) := by
              constructor <;>
                simp [_ingest_event_dict, k1, k2, k3, k4, branchGauge, hn,
                  pubRing_keeps]
            rw [hmain.1, hmain.2]
            have ha := adjFloorInv σ.inflightByService σ.inflightGlobal
              (lookupD σ.inflightByService (e.service.getD "unknown") 0 +
                pyInt (e.value.getD 0))
              (σ.inflightGlobal + pyInt (e.value.getD 0))
              (e.service.getD "unknown") h2 h1 h3 (by omega)
            exact ⟨ha.1, ha.2.1, ha.2.2⟩
          · have hmain : (_ingest_event_dict cfg sigOf e now draw σ).1.inflightGlobal =
                σ.inflightGlobal
                ∧ (_ingest_event_dict cfg sigOf e now draw σ).1.inflightByService =
                  σ.inflightByService := by
              constructor <;>
                simp [_ingest_event_dict, k1, k2, k3, k4, branchGauge, hn,
                  pubRing_keeps]
            rw [hmain.1, hmain.2]
            exact ⟨h1, h2, h3⟩
        · have hmain : (_ingest_event_dict cfg sigOf e now draw σ).1.inflightGlobal =
              σ.inflightGlobal
              ∧ (_ingest_event_dict cfg sigOf e now draw σ).1.inflightByService =
                σ.inflightByService := by
            by_cases k5 : e.kind = "span"
            · constructor <;>
                simp [_ingest_event_dict, k1, k2, k3, k4, k5, branchSpan_keeps,
                  pubRing_keeps]
            · constructor <;>
                simp [_ingest_event_dict, k1, k2, k3, k4, k5, pubRing_keeps]
          rw [hmain.1, hmain.2]
          exact ⟨h1, h2, h3⟩

/-- Any operation sequence preserves the in-flight invariant. -/
theorem run_inflight_inv (cfg : Config) (sigOf : String → String) (ops : List Op)
    (σ : CState)
    (h1 : 0 ≤ σ.inflightGlobal)
    (h2 : ∀ p ∈ σ.inflightByService, 0 ≤ p.2)
    (h3 : σ.inflightGlobal ≤ sumV σ.inflightByService) :
    0 ≤ (run cfg sigOf ops σ).inflightGlobal
    ∧ (∀ p ∈ (run cfg sigOf ops σ).inflightByService, 0 ≤ p.2)
    ∧ (run cfg sigOf ops σ).inflightGlobal ≤
      sumV (run cfg sigOf ops σ).inflightByService := by
  induction ops generalizing σ with
  | nil => exact ⟨h1, h2, h3⟩
  | cons op t ih =>
    cases op with
    | ev e now draw =>
      have hstep := ingest_inflight_inv cfg sigOf e now draw σ h1 h2 h3
      exact ih _ hstep.1 hstep.2.1 hstep.2.2
    | pruneSigsAt now =>
      refine ih _ ?_ ?_ ?_
      · simpa [opStep] using h1
      · simpa [opStep] using h2
      · simpa [opStep] using h3

/-- C1 (amended). After ingesting any sequence of events,
`INFLIGHT_GLOBAL ≥ 0`, every `INFLIGHT_BY_SERVICE` entry is `≥ 0`, and
`INFLIGHT_GLOBAL ≤ Σ INFLIGHT_BY_SERVICE`. The claimed equality
`INFLIGHT_GLOBAL = Σ INFLIGHT_BY_SERVICE` does not hold in general: the
zero floors are applied to each counter independently, so a per-service
underflow can lower the sum side only (see the counterexample). -/
theorem C1_theorem (cfg : Config) (sigOf : String → String) (ops : List Op) :
    0 ≤ (run cfg sigOf ops initState).inflightGlobal
    ∧ (∀ p ∈ (run cfg sigOf ops initState).inflightByService, 0 ≤ p.2)
    ∧ (run cfg sigOf ops initState).inflightGlobal ≤
      sumV (run cfg sigOf ops initState).inflightByService :=
  run_inflight_inv cfg sigOf ops initState (by simp [initState])
    (by simp [initState]) (by simp [initState, sumV])

/-- Bare `req_start` without request id, service `s`. -/
def startSvc (s : String) : EventDict :=
  { blankEvent with
    kind := "req_start"
    service := some s
    method := some "GET"
    path := some "/x" }

/-- Gauge `inflight_delta` event for service `s` with value `v`. -/
def gaugeEv (s : String) (v : ℚ) : EventDict :=
  { blankEvent with
    kind := "gauge"
    service := some s
    name := some "inflight_delta"
    value := some v }

/-- Counterexample for C1 as stated: after `req_start` on services `a` and
`b` and a gauge `inflight_delta` of `-2` on `a`, the per-service floor
fires on `a` while the global counter reaches zero exactly, leaving
`INFLIGHT_GLOBAL = 0` but `Σ INFLIGHT_BY_SERVICE = 1`. -/
theorem C1_counterexample :
    (run {} (fun s => s) [Op.ev (startSvc "a") 1 0, Op.ev (startSvc "b") 2 0,
        Op.ev (gaugeEv "a" (-2)) 3 0] initState).inflightGlobal = 0
    ∧ sumV (run {} (fun s => s) [Op.ev (startSvc "a") 1 0, Op.ev (startSvc "b") 2 0,
        Op.ev (gaugeEv "a" (-2)) 3 0] initState).inflightByService = 1
    ∧ (run {} (fun s => s) [Op.ev (startSvc "a") 1 0, Op.ev (startSvc "b") 2 0,
        Op.ev (gaugeEv "a" (-2)) 3 0] initState).inflightGlobal ≠
      sumV (run {} (fun s => s) [Op.ev (startSvc "a") 1 0, Op.ev (startSvc "b") 2 0,
        Op.ev (gaugeEv "a" (-2)) 3 0] initState).inflightByService := by
  have hpy : pyInt (-2 : ℚ) = -2 := by
    rw [pyInt, if_neg (by norm_num),
      show (-2 : ℚ) = ((-2 : ℤ) : ℚ) by norm_num, Int.ceil_intCast]
  refine ⟨?_, ?_, ?_⟩ <;>
    simp [run, opStep, _ingest_event_dict, startSvc, gaugeEv, blankEvent,
      branchReqStart, branchGauge, truthyS, pubRing_keeps, initState, setK,
      lookupD, lookup?, sumV, hpy]

/-! ### C8: error-signature window and counts -/

theorem keysOf_setK_mem {α : Type} (m : SMap α) (k a : String) (v : α)
    (h : a ∈ keysOf (setK m k v)) : a = k ∨ a ∈ keysOf m := by
  induction m with
  | nil => simpa [setK, keysOf] using h
  | cons q t ih =>
    by_cases hq : q.1 = k
    · simp only [setK, if_pos hq, keysOf, List.map_cons, List.mem_cons] at h
      rcases h with h | h
      · exact Or.inl h
      · exact Or.inr (by simp [keysOf]; right; simpa [keysOf] using h)
    · simp only [setK, if_neg hq, keysOf, List.map_cons, List.mem_cons] at h
      rcases h with h | h
      · exact Or.inr (by simp [keysOf, h])
      · rcases ih (by simpa [keysOf] using h) with h1 | h1
        · exact Or.inl h1
        · exact Or.inr (by simp [keysOf]; right; simpa [keysOf] using h1)

theorem nodup_setK {α : Type} (m : SMap α) (k : String) (v : α)
    (h : (keysOf m).Nodup) : (keysOf (setK m k v)).Nodup := by
  induction m with
  | nil => simp [setK, keysOf]
  | cons q t ih =>
    simp only [keysOf, List.map_cons, List.nodup_cons] at h
    by_cases hq : q.1 = k
    · simp only [setK, if_pos hq, keysOf, List.map_cons, List.nodup_cons]
      exact ⟨by rw [← hq]; exact h.1, h.2⟩
    · simp only [setK, if_neg hq, keysOf, List.map_cons, List.nodup_cons]
      refine ⟨?_, ih h.2⟩
      intro hmem
      rcases keysOf_setK_mem t k q.1 v hmem with h1 | h1
      · exact hq h1
      · exact h.1 h1

theorem keysOf_eraseK_sub {α : Type} (m : SMap α) (k a : String)
    (h : a ∈ keysOf (eraseK m k)) : a ∈ keysOf m := by
  induction m with
  | nil => simp [eraseK, keysOf] at h
  | cons q t ih =>
    by_cases hq : q.1 = k
    · simp only [eraseK, if_pos hq] at h
      simp [keysOf]
      right
      simpa [keysOf] using h
    · simp only [eraseK, if_neg hq, keysOf, List.map_cons, List.mem_cons] at h
      rcases h with h | h
      · simp [keysOf, h]
      · simp [keysOf]
        right
        simpa [keysOf] using ih (by simpa [keysOf] using h)

theorem nodup_eraseK {α : Type} (m : SMap α) (k : String)
    (h : (keysOf m).Nodup) : (keysOf (eraseK m k)).Nodup := by
  induction m with
  | nil => simp [eraseK, keysOf]
  | cons q t ih =>
    simp only [keysOf, List.map_cons, List.nodup_cons] at h
    by_cases hq : q.1 = k
    · simp only [eraseK, if_pos hq]
      exact h.2
    · simp only [eraseK, if_neg hq, keysOf, List.map_cons, List.nodup_cons]
      refine ⟨fun hmem => h.1 (keysOf_eraseK_sub t k q.1 hmem), ih h.2⟩

theorem not_mem_keys_eraseK {α : Type} (m : SMap α) (k : String)
    (h : (keysOf m).Nodup) : k ∉ keysOf (eraseK m k) := by
  induction m with
  | nil => simp [eraseK, keysOf]
  | cons q t ih =>
    simp only [keysOf, List.map_cons, List.nodup_cons] at h
    by_cases hq : q.1 = k
    · simp only [eraseK, if_pos hq]
      rw [← hq]
      exact h.1
    · simp only [eraseK, if_neg hq, keysOf, List.map_cons, List.mem_cons]
      rintro (h1 | h1)
      · exact hq h1.symm
      · exact ih h.2 (by simpa [keysOf] using h1)

theorem lookup?_eq_none_of_not_mem {α : Type} (m : SMap α) (k : String)
    (h : k ∉ keysOf m) : lookup? m k = none := by
  induction m with
  | nil => rfl
  | cons q t ih =>
    have h1 : ¬ q.1 = k := fun he => h (by simp [keysOf, he])
    have h2 : k ∉ keysOf t := fun he => h (by
      simp only [keysOf, List.map_cons, List.mem_cons]
      right
      simpa [keysOf] using he)
    simp only [lookup?, if_neg h1]
    exact ih h2

theorem lookup?_eraseK_self {α : Type} (m : SMap α) (k : String)
    (h : (keysOf m).Nodup) : lookup? (eraseK m k) k = none :=
  lookup?_eq_none_of_not_mem _ _ (not_mem_keys_eraseK m k h)

theorem lookup?_eraseK_ne {α : Type} (m : SMap α) (k k1 : String) (h : k1 ≠ k) :
    lookup? (eraseK m k) k1 = lookup? m k1 := by
  induction m with
  | nil => simp [eraseK]
  | cons q t ih =>
    by_cases hq : q.1 = k
    · simp only [eraseK, if_pos hq, lookup?]
      rw [if_neg (by rw [hq]; exact fun hh => h hh.symm)]
    · simp only [eraseK, if_neg hq, lookup?]
      by_cases hq1 : q.1 = k1
      · simp [hq1]
      · simp [hq1, ih]

theorem lookupD_ne_mem (m : SMap ℤ) (k : String) (h : lookupD m k 0 ≠ 0) :
    k ∈ keysOf m := by
  induction m with
  | nil => simp [lookupD, lookup?] at h
  | cons q t ih =>
    by_cases hq : q.1 = k
    · simp [keysOf, hq]
    · simp only [lookupD, lookup?, if_neg hq] at h
      simp [keysOf]
      right
      simpa [keysOf] using ih h

theorem mem_lookup?_nodup {α : Type} (m : SMap α) (p : String × α)
    (hnd : (keysOf m).Nodup) (h : p ∈ m) : lookup? m p.1 = some p.2 := by
  induction m with
  | nil => simp at h
  | cons q t ih =>
    simp only [keysOf, List.map_cons, List.nodup_cons] at hnd
    rcases List.mem_cons.1 h with h1 | h1
    · rw [h1]
      simp [lookup?]
    · have hne : q.1 ≠ p.1 := by
        intro he
        exact hnd.1 (he ▸ (List.mem_map.2 ⟨p, h1, rfl⟩))
      simp only [lookup?, if_neg hne]
      exact ih hnd.2 h1

/-- Inductive invariant tying `ERROR_SIG_COUNT` to `ERROR_SIG_WINDOW`:
keys are exactly the signatures present in the window, each stored count
is the window multiplicity, and the values sum to the window length. -/
def SigInvAux (win : List (ℚ × String)) (cnt : SMap ℤ) : Prop :=
  (keysOf cnt).Nodup
  ∧ (∀ s : String, lookupD cnt s 0 = ((win.map Prod.snd).count s : ℤ))
  ∧ (∀ s ∈ keysOf cnt, s ∈ win.map Prod.snd)
  ∧ sumV cnt = (win.length : ℤ)

/-- Appending one signature and incrementing its count preserves the
invariant. -/
theorem sig_incr (win : List (ℚ × String)) (cnt : SMap ℤ) (t : ℚ) (s : String)
    (h : SigInvAux win cnt) :
    SigInvAux (win ++ [(t, s)]) (setK cnt s (lookupD cnt s 0 + 1)) := by
  obtain ⟨hnd, hcount, hkeys, hsum⟩ := h
  refine ⟨nodup_setK _ _ _ hnd, ?_, ?_, ?_⟩
  · intro s1
    by_cases hs : s1 = s
    · subst hs
      have h1 : lookupD (setK cnt s1 (lookupD cnt s1 0 + 1)) s1 0 =
          lookupD cnt s1 0 + 1 := by
        simp [lookupD, lookup?_setK_self]
      rw [h1, hcount s1]
      simp [List.count_append]
      try push_cast
      try ring
    · have h1 : lookupD (setK cnt s (lookupD cnt s 0 + 1)) s1 0 =
          lookupD cnt s1 0 := by
        simp [lookupD, lookup?_setK_ne cnt s s1 _ hs]
      rw [h1, hcount s1]
      simp [List.count_append, List.count_singleton', hs]
  · intro a ha
    rcases keysOf_setK_mem _ _ _ _ ha with h1 | h1
    · subst h1
      simp [List.map_append]
    · have h2 := hkeys a h1
      simp only [List.map_append, List.mem_append]
      exact Or.inl h2
  · rw [sumV_setK, hsum]
    simp [List.length_append]
    try push_cast
    try ring

/-- The prune loop preserves the invariant. -/
theorem sig_prune (win : List (ℚ × String)) (cnt : SMap ℤ) (now w : ℚ)
    (h : SigInvAux win cnt) :
    SigInvAux (prune_error_sigs win cnt now w).1 (prune_error_sigs win cnt now w).2 := by
  induction win generalizing cnt with
  | nil =>
    simpa [prune_error_sigs] using h
  | cons x rest ih =>
    obtain ⟨t, s⟩ := x
    obtain ⟨hnd, hcount, hkeys, hsum⟩ := h
    simp only [prune_error_sigs]
    by_cases hexp : now - t > w
    · have hv : lookupD cnt s 0 = ((rest.map Prod.snd).count s : ℤ) + 1 := by
        rw [hcount s]
        simp [List.count_cons]
      rw [if_pos hexp]
      by_cases hz : lookupD cnt s 0 - 1 ≤ 0
      · rw [if_pos hz]
        have hc0 : ((rest.map Prod.snd).count s : ℤ) = 0 := by omega
        refine ih (eraseK cnt s) ⟨nodup_eraseK _ _ hnd, ?_, ?_, ?_⟩
        · intro s1
          by_cases hs : s1 = s
          · subst hs
            rw [show lookupD (eraseK cnt s1) s1 0 = 0 from by
              simp [lookupD, lookup?_eraseK_self cnt s1 hnd]]
            omega
          · rw [show lookupD (eraseK cnt s) s1 0 = lookupD cnt s1 0 from by
              simp [lookupD, lookup?_eraseK_ne cnt s s1 hs]]
            rw [hcount s1]
            simp [List.count_cons, hs]
        · intro a ha
          have hin := hkeys a (keysOf_eraseK_sub _ _ _ ha)
          have hne : a ≠ s := by
            intro he
            exact not_mem_keys_eraseK cnt s hnd (he ▸ ha)
          simp only [List.map_cons, List.mem_cons] at hin
          rcases hin with h1 | h1
          · exact absurd h1 hne
          · exact h1
        · rw [sumV_eraseK, hsum]
          simp
          try omega
      · rw [if_neg hz]
        have hpos : 0 < ((rest.map Prod.snd).count s : ℤ) := by omega
        refine ih _ ⟨nodup_setK _ _ _ hnd, ?_, ?_, ?_⟩
        · intro s1
          by_cases hs : s1 = s
          · subst hs
            rw [show lookupD (setK cnt s1 (lookupD cnt s1 0 - 1)) s1 0 =
                lookupD cnt s1 0 - 1 from by simp [lookupD, lookup?_setK_self]]
            omega
          · rw [show lookupD (setK cnt s (lookupD cnt s 0 - 1)) s1 0 =
                lookupD cnt s1 0 from by
              simp [lookupD, lookup?_setK_ne cnt s s1 _ hs]]
            rw [hcount s1]
            simp [List.count_cons, hs]
        · intro a ha
          rcases keysOf_setK_mem _ _ _ _ ha with h1 | h1
          · subst h1
            exact List.count_pos_iff.1 (by exact_mod_cast hpos)
          · have hin := hkeys a h1
            simp only [List.map_cons, List.mem_cons] at hin
            rcases hin with h1a | h1a
            · subst h1a
              exact List.count_pos_iff.1 (by exact_mod_cast hpos)
            · exact h1a
        · rw [sumV_setK, hsum]
          simp
          try omega
    · rw [if_neg hexp]
      exact ⟨hnd, hcount, hkeys, hsum⟩

/-- Error-signature fields are untouched by the `req_start` branch. -/
theorem branchReqStart_keeps_sig (d : EventDict) (now : ℚ) (ridT : Option String)
    (live : Bool) (σ : CState) :
    (branchReqStart d now ridT live σ).errorSigWindow = σ.errorSigWindow
    ∧ (branchReqStart d now ridT live σ).errorSigCount = σ.errorSigCount := by
  cases ridT <;> simp [branchReqStart]

/-- Error-signature fields are untouched by the `req`/`req_end` branch. -/
theorem branchReq_keeps_sig (cfg : Config) (d : EventDict) (now : ℚ)
    (ridT : Option String) (live : Bool) (σ : CState) :
    (branchReq cfg d now ridT live σ).errorSigWindow = σ.errorSigWindow
    ∧ (branchReq cfg d now ridT live σ).errorSigCount = σ.errorSigCount := by
  by_cases hk : d.kind = "req_end"
  · cases ridT with
    | none => simp [branchReq, hk, record_recent_keeps]
    | some r =>
      constructor <;>
        (simp only [branchReq, hk, if_pos]
         split <;> simp [record_recent_keeps])
  · cases ridT <;> simp [branchReq, hk, record_recent_keeps]

/-- Error-signature fields are untouched by the `gauge` branch. -/
theorem branchGauge_keeps_sig (d : EventDict) (σ : CState) :
    (branchGauge d σ).errorSigWindow = σ.errorSigWindow
    ∧ (branchGauge d σ).errorSigCount = σ.errorSigCount := by
  by_cases hn : d.name = some "inflight_delta" <;> simp [branchGauge, hn]

/-- One ingest step preserves the error-signature invariant. -/
theorem ingest_sig_inv (cfg : Config) (sigOf : String → String) (e : EventDict)
    (now draw : ℚ) (σ : CState)
    (h : SigInvAux σ.errorSigWindow σ.errorSigCount) :
    SigInvAux (_ingest_event_dict cfg sigOf e now draw σ).1.errorSigWindow
      (_ingest_event_dict cfg sigOf e now draw σ).1.errorSigCount := by
  by_cases k1 : e.kind = "req_start"
  · have hmain : (_ingest_event_dict cfg sigOf e now draw σ).1.errorSigWindow =
        σ.errorSigWindow
        ∧ (_ingest_event_dict cfg sigOf e now draw σ).1.errorSigCount =
          σ.errorSigCount := by
      constructor <;>
        simp [_ingest_event_dict, k1, branchReqStart_keeps_sig, pubRing_keeps]
    rw [hmain.1, hmain.2]
    exact h
  · by_cases k2 : e.kind = "req" ∨ e.kind = "req_end"
    · have hk12 : ¬ e.kind = "req_start" := k1
      have hmain : (_ingest_event_dict cfg sigOf e now draw σ).1.errorSigWindow =
          σ.errorSigWindow
          ∧ (_ingest_event_dict cfg sigOf e now draw σ).1.errorSigCount =
            σ.errorSigCount := by
        constructor <;>
          simp [_ingest_event_dict, k1, k2, branchReq_keeps_sig, pubRing_keeps]
      rw [hmain.1, hmain.2]
      exact h
    · by_cases k3 : e.kind = "log"
      · cases ht : truthyS e.trace with
        | none =>
          have hmain : (_ingest_event_dict cfg sigOf e now draw σ).1.errorSigWindow =
              σ.errorSigWindow
              ∧ (_ingest_event_dict cfg sigOf e now draw σ).1.errorSigCount =
                σ.errorSigCount := by
            constructor <;>
              simp [_ingest_event_dict, k1, k2, k3, branchLog, ht, pubRing_keeps]
          rw [hmain.1, hmain.2]
          exact h
        | some tr =>
          have hmain : (_ingest_event_dict cfg sigOf e now draw σ).1.errorSigWindow =
              (prune_error_sigs (σ.errorSigWindow ++ [(e.ts.getD now, sigOf tr)])
                (setK σ.errorSigCount (sigOf tr)
                  (lookupD σ.errorSigCount (sigOf tr) 0 + 1)) now cfg.windowS).1
              ∧ (_ingest_event_dict cfg sigOf e now draw σ).1.errorSigCount =
                (prune_error_sigs (σ.errorSigWindow ++ [(e.ts.getD now, sigOf tr)])
                  (setK σ.errorSigCount (sigOf tr)
                    (lookupD σ.errorSigCount (sigOf tr) 0 + 1)) now cfg.windowS).2 := by
            constructor <;>
              simp [_ingest_event_dict, k1, k2, k3, branchLog, ht, pubRing_keeps]
          rw [hmain.1, hmain.2]
          exact sig_prune _ _ _ _ (sig_incr _ _ _ _ h)
      · by_cases k4 : e.kind = "gauge"
        · have hmain : (_ingest_event_dict cfg sigOf e now draw σ).1.errorSigWindow =
              σ.errorSigWindow
              ∧ (_ingest_event_dict cfg sigOf e now draw σ).1.errorSigCount =
                σ.errorSigCount := by
            constructor <;>
              simp [_ingest_event_dict, k1, k2, k3, k4, branchGauge_keeps_sig,
                pubRing_keeps]
          rw [hmain.1, hmain.2]
          exact h
        · have hmain : (_ingest_event_dict cfg sigOf e now draw σ).1.errorSigWindow =
              σ.errorSigWindow
              ∧ (_ingest_event_dict cfg sigOf e now draw σ).1.errorSigCount =
                σ.errorSigCount := by
            by_cases k5 : e.kind = "span"
            · constructor <;>
                simp [_ingest_event_dict, k1, k2, k3, k4, k5, branchSpan_keeps,
                  pubRing_keeps]
            · constructor <;>
                simp [_ingest_event_dict, k1, k2, k3, k4, k5, pubRing_keeps]
          rw [hmain.1, hmain.2]
          exact h

/-- Any operation sequence preserves the error-signature invariant. -/
theorem run_sig_inv (cfg : Config) (sigOf : String → String) (ops : List Op)
    (σ : CState) (h : SigInvAux σ.errorSigWindow σ.errorSigCount) :
    SigInvAux (run cfg sigOf ops σ).errorSigWindow
      (run cfg sigOf ops σ).errorSigCount := by
  induction ops generalizing σ with
  | nil => exact h
  | cons op t ih =>
    cases op with
    | ev e now draw => exact ih _ (ingest_sig_inv cfg sigOf e now draw σ h)
    | pruneSigsAt now =>
      refine ih _ ?_
      have hmain : (opStep cfg sigOf σ (Op.pruneSigsAt now)).errorSigWindow =
          (prune_error_sigs σ.errorSigWindow σ.errorSigCount now cfg.windowS).1
          ∧ (opStep cfg sigOf σ (Op.pruneSigsAt now)).errorSigCount =
            (prune_error_sigs σ.errorSigWindow σ.errorSigCount now cfg.windowS).2 := by
        constructor <;> simp [opStep]
      rw [hmain.1, hmain.2]
      exact sig_prune _ _ _ _ h

/-- C8. After any sequence of ingests and prunes, the key set of
`ERROR_SIG_COUNT` equals the set of distinct signatures currently in
`ERROR_SIG_WINDOW`, the counts sum to the window length, and no key has a
zero count. -/
theorem C8_theorem (cfg : Config) (sigOf : String → String) (ops : List Op) :
    (∀ s : String, s ∈ keysOf (run cfg sigOf ops initState).errorSigCount ↔
      s ∈ (run cfg sigOf ops initState).errorSigWindow.map Prod.snd)
    ∧ sumV (run cfg sigOf ops initState).errorSigCount =
      ((run cfg sigOf ops initState).errorSigWindow.length : ℤ)
    ∧ (∀ p ∈ (run cfg sigOf ops initState).errorSigCount, p.2 ≠ 0) := by
  have hinv := run_sig_inv cfg sigOf ops initState
    (by refine ⟨by simp [initState, keysOf], ?_, ?_, ?_⟩ <;>
      simp [initState, lookupD, lookup?, keysOf, sumV])
  obtain ⟨hnd, hcount, hkeys, hsum⟩ := hinv
  refine ⟨?_, hsum, ?_⟩
  · intro s
    constructor
    · exact hkeys s
    · intro hs
      have hpos : 0 < ((run cfg sigOf ops initState).errorSigWindow.map Prod.snd).count s :=
        List.count_pos_iff.2 hs
      refine lookupD_ne_mem _ s ?_
      rw [hcount s]
      omega
  · intro p hp
    have hl : lookup? (run cfg sigOf ops initState).errorSigCount p.1 = some p.2 :=
      mem_lookup?_nodup _ p hnd hp
    have hld : lookupD (run cfg sigOf ops initState).errorSigCount p.1 0 = p.2 := by
      simp [lookupD, hl]
    have hm : p.1 ∈ keysOf (run cfg sigOf ops initState).errorSigCount :=
      List.mem_map.2 ⟨p, hp, rfl⟩
    have hin := hkeys p.1 hm
    have hpos : 0 < ((run cfg sigOf ops initState).errorSigWindow.map Prod.snd).count p.1 :=
      List.count_pos_iff.2 hin
    rw [hcount p.1] at hld
    omega
